import Mathlib

/-!
# Chip-8 emulator: instruction engine

A shallow embedding of `Chip8Emulator/chip8.h` and `Chip8Emulator/chip8.cpp`.

* C++ arrays are functions `Nat → Nat`; every array access whose index is not
  bounded by a mask in the source is guarded here, and an access outside the
  array (undefined behaviour in C++) is reported as a `Fault`.
* `unsigned char` and `unsigned short` values are natural numbers; every store
  truncates explicitly (`% 256`, `% 65536`, or `toU8` / `toU16` for values
  computed in `int`).
* Writes to `std::cout` and calls to `rand()` are made explicit by the fields
  `cout` and `rand` of the state.
-/

namespace Chip8Emulator

/-- An access outside the bounds of one of the fixed-size C++ arrays. The source
performs these accesses unchecked, so in C++ they are undefined behaviour. -/
inductive Fault where
  | memoryOutOfBounds
  | stackOutOfBounds
  | screenOutOfBounds
  | keysOutOfBounds
  | tableOutOfBounds
  deriving DecidableEq, Repr

/-- What `EmulateCycle` and `LoadApplication` write to `std::cout`. -/
inductive Output where
  /-- The line `std::cout << "BEEP!" << std::endl`. -/
  | beepLine
  /-- The bell character `std::cout << '\a'`, written only when sound is enabled. -/
  | bell
  /-- The line `std::cout << "The application is too big." << std::endl` of
  `LoadApplication`. -/
  | tooBigLine
  deriving DecidableEq, Repr

/-- The data members of `class Chip8` (chip8.h lines 26-41), followed by the
two pieces of environment the methods touch: the characters written to
`std::cout` and the values the next calls of `rand()` return. -/
structure Chip8 where
  /-- `unsigned char screen[SCREEN_WIDTH * SCREEN_HEIGHT]`, 64 * 32 cells. -/
  screen : Nat → Nat
  /-- `unsigned char keys[16]`. -/
  keys : Nat → Nat
  /-- `unsigned short pc`. -/
  pc : Nat
  /-- `unsigned short opcode`. -/
  opcode : Nat
  /-- `unsigned short I`. -/
  I : Nat
  /-- `unsigned short sp`. -/
  sp : Nat
  /-- `unsigned char V[16]`. -/
  V : Nat → Nat
  /-- `unsigned short stack[16]`. -/
  stack : Nat → Nat
  /-- `unsigned char memory[4096]`. -/
  memory : Nat → Nat
  /-- `unsigned char delay_timer`. -/
  delay_timer : Nat
  /-- `unsigned char sound_timer`. -/
  sound_timer : Nat
  /-- `bool soundEnabled`. -/
  soundEnabled : Bool
  /-- Everything written to `std::cout` so far, oldest first. -/
  cout : List Output
  /-- The values the coming calls of `rand()` return: `rand 0` is the next one. -/
  rand : Nat → Nat

/-- Array store `a[i] = v`. -/
def setAt (a : Nat → Nat) (i v : Nat) : Nat → Nat :=
  fun k => if k = i then v else a k

/-- Conversion of an `int` to `unsigned char`. -/
def toU8 (z : Int) : Nat := (z % 256).toNat

/-- Conversion of an `int` to `unsigned short`. -/
def toU16 (z : Int) : Nat := (z % 65536).toNat

/-- Conversion of a C++ `bool` to an integer. -/
def boolToNat (b : Bool) : Nat := if b then 1 else 0

/-- The register index `(opcode & 0x0F00) >> 8`. -/
def opX (c : Chip8) : Nat := (c.opcode &&& 0x0F00) >>> 8

/-- The register index `(opcode & 0x00F0) >> 4`. -/
def opY (c : Chip8) : Nat := (c.opcode &&& 0x00F0) >>> 4

/-- The font table `fontset[80]` of chip8.h lines 45-63. -/
def fontset : List Nat :=
  [0xF0, 0x90, 0x90, 0x90, 0xF0,
   0x20, 0x60, 0x20, 0x20, 0x70,
   0xF0, 0x10, 0xF0, 0x80, 0xF0,
   0xF0, 0x10, 0xF0, 0x10, 0xF0,
   0x90, 0x90, 0xF0, 0x10, 0x10,
   0xF0, 0x80, 0xF0, 0x10, 0xF0,
   0xF0, 0x80, 0xF0, 0x90, 0xF0,
   0xF0, 0x10, 0x20, 0x40, 0x40,
   0xF0, 0x90, 0xF0, 0x90, 0xF0,
   0xF0, 0x90, 0xF0, 0x10, 0xF0,
   0xF0, 0x90, 0xF0, 0x90, 0x90,
   0xE0, 0x90, 0xE0, 0x90, 0xE0,
   0xF0, 0x80, 0x80, 0x80, 0xF0,
   0xE0, 0x90, 0x90, 0x90, 0xE0,
   0xF0, 0x80, 0xF0, 0x80, 0xF0,
   0xF0, 0x80, 0xF0, 0x80, 0x80]

/-- Method `Chip8::init` (chip8.cpp lines 24-42). The `memset` and `memcpy` calls do not
touch `stack`, which keeps its previous contents. -/
def init (c : Chip8) : Chip8 :=
  { c with
    memory := fun a => if a < 80 then fontset.getD a 0 else 0
    V := fun _ => 0
    screen := fun _ => 0
    keys := fun _ => 0
    pc := 0x200
    opcode := 0
    I := 0
    sp := 0
    delay_timer := 0
    sound_timer := 0
    soundEnabled := true }

/-- Method `Chip8::clearScreen`, 00E0. -/
def clearScreen (c : Chip8) : Except Fault Chip8 :=
  .ok { c with screen := fun _ => 0 }

/-- Method `Chip8::returnFromSubroutine`, 00EE: `pc = stack[--sp]`. -/
def returnFromSubroutine (c : Chip8) : Except Fault Chip8 :=
  let sp1 := toU16 ((c.sp : Int) - 1)
  if sp1 < 16 then .ok { c with sp := sp1, pc := c.stack sp1 }
  else .error .stackOutOfBounds

/-- Method `Chip8::jumpToAddress`, 1NNN: `pc = (opcode & 0x0FFF) - 2`. -/
def jumpToAddress (c : Chip8) : Except Fault Chip8 :=
  .ok { c with pc := toU16 (((c.opcode &&& 0x0FFF : Nat) : Int) - 2) }

/-- Method `Chip8::callSubroutine`, 2NNN: `stack[sp++] = pc; pc = (opcode & 0x0FFF) - 2`. -/
def callSubroutine (c : Chip8) : Except Fault Chip8 :=
  if c.sp < 16 then
    .ok { c with
      stack := setAt c.stack c.sp c.pc
      sp := (c.sp + 1) % 65536
      pc := toU16 (((c.opcode &&& 0x0FFF : Nat) : Int) - 2) }
  else .error .stackOutOfBounds

/-- Method `Chip8::skipInstructionIfEqualsN`, 3XNN. -/
def skipInstructionIfEqualsN (c : Chip8) : Except Fault Chip8 :=
  if c.V (opX c) = (c.opcode &&& 0x00FF) then .ok { c with pc := (c.pc + 2) % 65536 }
  else .ok c

/-- Method `Chip8::skipInstructionIfNotEqualsN`, 4XNN. -/
def skipInstructionIfNotEqualsN (c : Chip8) : Except Fault Chip8 :=
  if c.V (opX c) ≠ (c.opcode &&& 0x00FF) then .ok { c with pc := (c.pc + 2) % 65536 }
  else .ok c

/-- Method `Chip8::skipInstructionIfEquals`, 5XY0. -/
def skipInstructionIfEquals (c : Chip8) : Except Fault Chip8 :=
  if c.V (opX c) = c.V (opY c) then .ok { c with pc := (c.pc + 2) % 65536 }
  else .ok c

/-- Method `Chip8::setToN`, 6XNN. -/
def setToN (c : Chip8) : Except Fault Chip8 :=
  .ok { c with V := setAt c.V (opX c) ((c.opcode &&& 0x00FF) % 256) }

/-- Method `Chip8::AddN`, 7XNN: `V[x] += opcode & 0x00FF`. -/
def AddN (c : Chip8) : Except Fault Chip8 :=
  .ok { c with V := setAt c.V (opX c) ((c.V (opX c) + (c.opcode &&& 0x00FF)) % 256) }

/-- Method `Chip8::assign`, 8XY0. -/
def assign (c : Chip8) : Except Fault Chip8 :=
  .ok { c with V := setAt c.V (opX c) (c.V (opY c)) }

/-- Method `Chip8::bitwiseOr`, 8XY1. -/
def bitwiseOr (c : Chip8) : Except Fault Chip8 :=
  .ok { c with V := setAt c.V (opX c) ((c.V (opX c) ||| c.V (opY c)) % 256) }

/-- Method `Chip8::bitwiseAnd`, 8XY2. -/
def bitwiseAnd (c : Chip8) : Except Fault Chip8 :=
  .ok { c with V := setAt c.V (opX c) ((c.V (opX c) &&& c.V (opY c)) % 256) }

/-- Method `Chip8::bitwiseXor`, 8XY3. -/
def bitwiseXor (c : Chip8) : Except Fault Chip8 :=
  .ok { c with V := setAt c.V (opX c) ((c.V (opX c) ^^^ c.V (opY c)) % 256) }

/-- Method `Chip8::add`, 8XY4. Two statements: the flag is stored first, and the second
statement reads the registers again. -/
def add (c : Chip8) : Except Fault Chip8 :=
  let c1 := { c with V := setAt c.V 0xF (((c.V (opX c) + c.V (opY c)) >>> 8) % 256) }
  .ok { c1 with V := setAt c1.V (opX c) ((c1.V (opX c) + c1.V (opY c)) % 256) }

/-- Method `Chip8::subtract`, 8XY5. -/
def subtract (c : Chip8) : Except Fault Chip8 :=
  let c1 := { c with V := setAt c.V 0xF (boolToNat (decide (c.V (opX c) ≥ c.V (opY c)))) }
  .ok { c1 with V := setAt c1.V (opX c) (toU8 ((c1.V (opX c) : Int) - (c1.V (opY c) : Int))) }

/-- Method `Chip8::bitwiseShiftRight`, 8XY6. -/
def bitwiseShiftRight (c : Chip8) : Except Fault Chip8 :=
  let c1 := { c with V := setAt c.V 0xF ((c.V (opX c) &&& 0x0001) % 256) }
  .ok { c1 with V := setAt c1.V (opX c) ((c1.V (opX c) >>> 1) % 256) }

/-- Method `Chip8::reverseSubtract`, 8XY7. -/
def reverseSubtract (c : Chip8) : Except Fault Chip8 :=
  let c1 := { c with V := setAt c.V 0xF (boolToNat (decide (c.V (opX c) ≤ c.V (opY c)))) }
  .ok { c1 with V := setAt c1.V (opX c) (toU8 ((c1.V (opY c) : Int) - (c1.V (opX c) : Int))) }

/-- Method `Chip8::bitwiseShiftLeft`, 8XYE. -/
def bitwiseShiftLeft (c : Chip8) : Except Fault Chip8 :=
  let c1 := { c with V := setAt c.V 0xF ((c.V (opX c) >>> 7) % 256) }
  .ok { c1 with V := setAt c1.V (opX c) ((c1.V (opX c) <<< 1) % 256) }

/-- Method `Chip8::skipInstructionIfNotEquals`, 9XY0. -/
def skipInstructionIfNotEquals (c : Chip8) : Except Fault Chip8 :=
  if c.V (opX c) ≠ c.V (opY c) then .ok { c with pc := (c.pc + 2) % 65536 }
  else .ok c

/-- Method `Chip8::setI`, ANNN. -/
def setI (c : Chip8) : Except Fault Chip8 :=
  .ok { c with I := (c.opcode &&& 0x0FFF) % 65536 }

/-- Method `Chip8::jumpToAddressPlus`, BNNN: `pc = (opcode & 0x0FFF) + V[0] - 2`. -/
def jumpToAddressPlus (c : Chip8) : Except Fault Chip8 :=
  .ok { c with pc := toU16 (((c.opcode &&& 0x0FFF : Nat) : Int) + (c.V 0 : Int) - 2) }

/-- Method `Chip8::setRandom`, CXNN: `V[x] = rand() & opcode & 0x00FF`. -/
def setRandom (c : Chip8) : Except Fault Chip8 :=
  .ok { c with
    V := setAt c.V (opX c) (((c.rand 0 &&& c.opcode) &&& 0x00FF) % 256)
    rand := fun k => c.rand (k + 1) }

/-- One pass of the inner loop body of `Chip8::drawSprite` (lines 235-242). -/
def drawPixel (x y row i : Nat) (c : Chip8) (j : Nat) : Except Fault Chip8 :=
  if (row &&& (0x80 >>> j)) ≠ 0 then
    if 64 * (y + i) + x + j < 64 * 32 then
      let c1 := if c.screen (64 * (y + i) + x + j) = 1 then { c with V := setAt c.V 0xF 1 } else c
      .ok { c1 with
        screen := setAt c1.screen (64 * (y + i) + x + j)
          ((c1.screen (64 * (y + i) + x + j) ^^^ 1) % 256) }
    else .error .screenOutOfBounds
  else .ok c

/-- One pass of the outer loop body of `Chip8::drawSprite` (lines 232-243). -/
def drawRow (x y : Nat) (c : Chip8) (i : Nat) : Except Fault Chip8 :=
  if c.I + i < 4096 then
    (List.range 8).foldlM (drawPixel x y (c.memory (c.I + i)) i) c
  else .error .memoryOutOfBounds

/-- Method `Chip8::drawSprite`, DXYN. -/
def drawSprite (c : Chip8) : Except Fault Chip8 :=
  let N := (c.opcode &&& 0x000F) % 256
  let x := c.V (opX c)
  let y := c.V (opY c)
  let c1 := { c with V := setAt c.V 0xF 0 }
  (List.range N).foldlM (drawRow x y) c1

/-- Method `Chip8::skipIfKeyPressed`, EX9E. -/
def skipIfKeyPressed (c : Chip8) : Except Fault Chip8 :=
  if c.V (opX c) < 16 then
    if c.keys (c.V (opX c)) = 1 then .ok { c with pc := (c.pc + 2) % 65536 } else .ok c
  else .error .keysOutOfBounds

/-- Method `Chip8::skipIfKeyNotPressed`, EXA1. -/
def skipIfKeyNotPressed (c : Chip8) : Except Fault Chip8 :=
  if c.V (opX c) < 16 then
    if c.keys (c.V (opX c)) = 0 then .ok { c with pc := (c.pc + 2) % 65536 } else .ok c
  else .error .keysOutOfBounds

/-- Method `Chip8::getDelay`, FX07. -/
def getDelay (c : Chip8) : Except Fault Chip8 :=
  .ok { c with V := setAt c.V (opX c) c.delay_timer }

/-- Method `Chip8::getKey`, FX0A. The loop stops at the first `i` in 0..15 with
`keys[i] != 0`; when there is none, `pc -= 2`. -/
def getKey (c : Chip8) : Except Fault Chip8 :=
  match (List.range 16).find? (fun i => decide (c.keys i ≠ 0)) with
  | some i => .ok { c with V := setAt c.V (opX c) (i % 256) }
  | none => .ok { c with pc := toU16 ((c.pc : Int) - 2) }

/-- Method `Chip8::setDelay`, FX15. -/
def setDelay (c : Chip8) : Except Fault Chip8 :=
  .ok { c with delay_timer := c.V (opX c) }

/-- Method `Chip8::setSound`, FX18. -/
def setSound (c : Chip8) : Except Fault Chip8 :=
  .ok { c with sound_timer := c.V (opX c) }

/-- Method `Chip8::addToI`, FX1E. Two statements: the flag is stored first, and the
second statement reads `V[x]` again. -/
def addToI (c : Chip8) : Except Fault Chip8 :=
  let c1 := { c with V := setAt c.V 0xF (((c.I + c.V (opX c)) >>> 16) % 256) }
  .ok { c1 with I := (c1.I + c1.V (opX c)) % 65536 }

/-- Method `Chip8::findCharacter`, FX29. -/
def findCharacter (c : Chip8) : Except Fault Chip8 :=
  .ok { c with I := ((c.V (opX c) &&& 0x0F) * 5) % 65536 }

/-- A store `memory[a] = v` with the bound of `memory[4096]` made explicit. -/
def writeMemory (c : Chip8) (a v : Nat) : Except Fault Chip8 :=
  if a < 4096 then .ok { c with memory := setAt c.memory a (v % 256) }
  else .error .memoryOutOfBounds

/-- Method `Chip8::setBCD`, FX33. -/
def setBCD (c : Chip8) : Except Fault Chip8 := do
  let c1 ← writeMemory c c.I (c.V (opX c) / 100)
  let c2 ← writeMemory c1 (c1.I + 1) ((c1.V (opX c) % 100) / 10)
  writeMemory c2 (c2.I + 2) (c2.V (opX c) % 10)

/-- Method `Chip8::storeRegisters`, FX55: `memcpy(memory + I, V, x + 1)`. -/
def storeRegisters (c : Chip8) : Except Fault Chip8 :=
  if c.I + (opX c + 1) ≤ 4096 then
    .ok { c with
      memory := fun a => if c.I ≤ a ∧ a < c.I + (opX c + 1) then c.V (a - c.I) else c.memory a }
  else .error .memoryOutOfBounds

/-- Method `Chip8::loadRegisters`, FX65: `memcpy(V, memory + I, x + 1)`. -/
def loadRegisters (c : Chip8) : Except Fault Chip8 :=
  if c.I + (opX c + 1) ≤ 4096 then
    .ok { c with V := fun k => if k < opX c + 1 then c.memory (c.I + k) else c.V k }
  else .error .memoryOutOfBounds

/-- The table `opcode0DecodeTable[2]` of chip8.h. -/
def opcode0DecodeTable : Nat → Chip8 → Except Fault Chip8
  | 0 => clearScreen
  | 1 => returnFromSubroutine
  | _ => fun _ => .error .tableOutOfBounds

/-- Method `Chip8::decodeOpcode0`. -/
def decodeOpcode0 (c : Chip8) : Except Fault Chip8 :=
  opcode0DecodeTable ((c.opcode &&& 0x0002) >>> 1) c

/-- The table `opcode8DecodeTable[9]` of chip8.h. -/
def opcode8DecodeTable : Nat → Chip8 → Except Fault Chip8
  | 0 => assign
  | 1 => bitwiseOr
  | 2 => bitwiseAnd
  | 3 => bitwiseXor
  | 4 => add
  | 5 => subtract
  | 6 => bitwiseShiftRight
  | 7 => reverseSubtract
  | 8 => bitwiseShiftLeft
  | _ => fun _ => .error .tableOutOfBounds

/-- Method `Chip8::decodeOpcode8`. -/
def decodeOpcode8 (c : Chip8) : Except Fault Chip8 :=
  if (c.opcode &&& 0x0008) = 0 then opcode8DecodeTable (c.opcode &&& 0x0007) c
  else opcode8DecodeTable 8 c

/-- The table `opcodeEDecodeTable[2]` of chip8.h. -/
def opcodeEDecodeTable : Nat → Chip8 → Except Fault Chip8
  | 0 => skipIfKeyPressed
  | 1 => skipIfKeyNotPressed
  | _ => fun _ => .error .tableOutOfBounds

/-- Method `Chip8::decodeOpcodeE`. -/
def decodeOpcodeE (c : Chip8) : Except Fault Chip8 :=
  opcodeEDecodeTable (c.opcode &&& 0x0001) c

/-- Method `Chip8::decodeOpcodeF`: a `switch` on the low byte without a default case. -/
def decodeOpcodeF (c : Chip8) : Except Fault Chip8 :=
  match c.opcode &&& 0x00FF with
  | 0x07 => getDelay c
  | 0x0A => getKey c
  | 0x15 => setDelay c
  | 0x18 => setSound c
  | 0x1E => addToI c
  | 0x29 => findCharacter c
  | 0x33 => setBCD c
  | 0x55 => storeRegisters c
  | 0x65 => loadRegisters c
  | _ => .ok c

/-- The table `decodeTable[16]` of chip8.h. -/
def decodeTable : Nat → Chip8 → Except Fault Chip8
  | 0 => decodeOpcode0
  | 1 => jumpToAddress
  | 2 => callSubroutine
  | 3 => skipInstructionIfEqualsN
  | 4 => skipInstructionIfNotEqualsN
  | 5 => skipInstructionIfEquals
  | 6 => setToN
  | 7 => AddN
  | 8 => decodeOpcode8
  | 9 => skipInstructionIfNotEquals
  | 10 => setI
  | 11 => jumpToAddressPlus
  | 12 => setRandom
  | 13 => drawSprite
  | 14 => decodeOpcodeE
  | 15 => decodeOpcodeF
  | _ => fun _ => .error .tableOutOfBounds

/-- The fetch of `Chip8::EmulateCycle` (line 416):
`opcode = memory[pc] << 8 | memory[pc + 1]`. -/
def fetch (c : Chip8) : Except Fault Chip8 :=
  if c.pc + 1 < 4096 then
    .ok { c with opcode := ((c.memory c.pc <<< 8) ||| c.memory (c.pc + 1)) % 65536 }
  else .error .memoryOutOfBounds

/-- The timer update of `Chip8::EmulateCycle` (lines 422-439). -/
def updateTimers (c : Chip8) : Chip8 :=
  let c1 := if c.delay_timer > 0 then { c with delay_timer := c.delay_timer - 1 } else c
  if c1.sound_timer > 0 then
    let c2 :=
      if c1.sound_timer = 1 then
        let c3 := { c1 with cout := c1.cout ++ [Output.beepLine] }
        if c3.soundEnabled then { c3 with cout := c3.cout ++ [Output.bell] } else c3
      else c1
    { c2 with sound_timer := c2.sound_timer - 1 }
  else c1

/-- Method `Chip8::EmulateCycle` (lines 411-445): fetch, dispatch through `decodeTable`,
`pc += 2`, timer update. Nothing in the `try` block throws, so the `catch` is
never entered. -/
def EmulateCycle (c : Chip8) : Except Fault Chip8 := do
  let c1 ← fetch c
  let c2 ← decodeTable ((c1.opcode &&& 0xF000) >>> 12) c1
  let c3 := { c2 with pc := (c2.pc + 2) % 65536 }
  pure (updateTimers c3)

/-- Every field lies in the range of its C++ type. -/
structure WF (c : Chip8) : Prop where
  screen_lt : ∀ p, c.screen p < 256
  keys_lt : ∀ k, c.keys k < 256
  pc_lt : c.pc < 65536
  opcode_lt : c.opcode < 65536
  I_lt : c.I < 65536
  sp_lt : c.sp < 65536
  V_lt : ∀ k, c.V k < 256
  stack_lt : ∀ k, c.stack k < 65536
  memory_lt : ∀ a, c.memory a < 256
  delay_lt : c.delay_timer < 256
  sound_lt : c.sound_timer < 256

/-- The instruction word stored big-endian at `pc` is `op`, and both of its bytes
lie inside `memory[4096]`. -/
def Fetches (c : Chip8) (op : Nat) : Prop :=
  c.pc + 1 < 4096 ∧ c.memory c.pc = op / 256 ∧ c.memory (c.pc + 1) = op % 256 ∧ op < 65536

instance decFetches (c : Chip8) (op : Nat) : Decidable (Fetches c op) :=
  inferInstanceAs (Decidable (_ ∧ _ ∧ _ ∧ _))

/-- A state with every array zeroed and every scalar zero, sound enabled. -/
def blank : Chip8 :=
  { screen := fun _ => 0, keys := fun _ => 0, pc := 0, opcode := 0, I := 0, sp := 0,
    V := fun _ => 0, stack := fun _ => 0, memory := fun _ => 0, delay_timer := 0,
    sound_timer := 0, soundEnabled := true, cout := [], rand := fun _ => 0 }

/-- The state after construction (`Chip8::Chip8` calls `init`) with the two-byte
instruction word `op` placed at the load address 0x200. -/
def withProgram (op : Nat) : Chip8 :=
  let c := init blank
  { c with memory := setAt (setAt c.memory 0x200 (op / 256)) 0x201 (op % 256) }

/-- The state `c` with the two-byte instruction word `op` stored big-endian at
address `a`. -/
def poke (c : Chip8) (a op : Nat) : Chip8 :=
  { c with memory := setAt (setAt c.memory a (op / 256)) (a + 1) (op % 256) }

/-- The state `c` with registers V0, V1, ... set to the listed values and the
remaining registers set to zero. -/
def withV (c : Chip8) (vs : List Nat) : Chip8 :=
  { c with V := fun k => vs.getD k 0 }

/-- The state `c` with the index register set to `i`. -/
def withI (c : Chip8) (i : Nat) : Chip8 := { c with I := i }

/-- The state `c` with the program counter set to `a`. -/
def withPC (c : Chip8) (a : Nat) : Chip8 := { c with pc := a }

/-- The state `c` with key-pad entries 0, 1, ... set to the listed values and the
remaining entries set to zero. -/
def withKeys (c : Chip8) (ks : List Nat) : Chip8 :=
  { c with keys := fun k => ks.getD k 0 }

/-- The state `c` with the delay timer set to `dt` and the sound timer to `st`. -/
def withTimers (c : Chip8) (dt st : Nat) : Chip8 :=
  { c with delay_timer := dt, sound_timer := st }

/-- The fields that only FX15, FX18 and the timer update write. -/
def SameTimers (c1 c2 : Chip8) : Prop :=
  c2.delay_timer = c1.delay_timer ∧ c2.sound_timer = c1.sound_timer ∧
    c2.cout = c1.cout ∧ c2.soundEnabled = c1.soundEnabled

/-- Bit `7 - j` of the sprite row `memory[I + i]`: the sprite bit for column `j`
of row `i`, most significant bit first. -/
def spriteBit (c : Chip8) (i j : Nat) : Nat := c.memory (c.I + i) / 2 ^ (7 - j) % 2

/-- The index `64 * (y + i) + x + j` that `drawSprite` uses for column `j` of row
`i` of a sprite drawn at `(x, y)`. -/
def pix (x y i j : Nat) : Nat := 64 * (y + i) + x + j

/-- The sprite cells that the two loops of `drawSprite` have passed when the outer
loop is in row `i` and the inner loop is about to handle column `q`. -/
def Drawn (i q i' j' : Nat) : Prop := j' < 8 ∧ (i' < i ∨ (i' = i ∧ j' < q))

/-- Loop invariant of `drawSprite`, relating the current state `b` to the state
`c` before the instruction, for a sprite drawn at `(x, y)`. -/
structure SpriteInv (c : Chip8) (x y i q : Nat) (b : Chip8) : Prop where
  drawn : ∀ i' j', Drawn i q i' j' →
    b.screen (pix x y i' j') = c.screen (pix x y i' j') ^^^ spriteBit c i' j'
  rest : ∀ p, (∀ i' j', Drawn i q i' j' → p ≠ pix x y i' j') → b.screen p = c.screen p
  flag01 : b.V 0xF = 1 ∨ b.V 0xF = 0
  flag : b.V 0xF = 1 ↔
    ∃ i' j', Drawn i q i' j' ∧ spriteBit c i' j' = 1 ∧ c.screen (pix x y i' j') = 1
  index : b.I = c.I
  mem : b.memory = c.memory
  regs : ∀ k, k ≠ 0xF → b.V k = c.V k
  pc_eq : b.pc = c.pc

/-- Conversion of a stream offset to `int`, a 32-bit two's complement integer:
the value modulo 2^32, read as a signed number. It is the identity below 2^31. -/
def toInt32 (n : Nat) : Int := ((n : Int) + 2147483648) % 4294967296 - 2147483648

/-- Method `Chip8::LoadApplication` (chip8.cpp lines 386-408). The argument `file` is
what `std::ifstream in(filename, ...)` finds: `none` when the file cannot be
opened, otherwise its bytes. The result is the returned `bool` and the new state.
The local `int length = int(in.tellg())` is the number of bytes of the file
narrowed to `int`; `in.read(memory + 512, length)` stores the first `length`
bytes of the file and stores nothing when `length` is not positive. The message
written to `std::cerr` when the file cannot be opened is not recorded. -/
def LoadApplication (file : Option (List (Fin 256))) (c : Chip8) : Bool × Chip8 :=
  match file with
  | some bytes =>
    let length : Int := toInt32 bytes.length
    if length > 4096 - 512 then
      (false, { c with cout := c.cout ++ [Output.tooBigLine] })
    else
      (true, { c with
        memory := fun a =>
          if 512 ≤ a ∧ a < 512 + length.toNat then ((bytes.getD (a - 512) 0 : Fin 256) : Nat)
          else c.memory a })
  | none => (false, c)

/-- Method `Chip8::ToggleSound` (chip8.h line 24). -/
def ToggleSound (c : Chip8) : Chip8 := { c with soundEnabled := !c.soundEnabled }

/-- The instruction word that the fetch of `EmulateCycle` reads in state `c`. -/
def nextWord (c : Chip8) : Nat := ((c.memory c.pc <<< 8) ||| c.memory (c.pc + 1)) % 65536

/-- The instruction word `op` is decoded as FX15: `decodeTable` index 15 and low
byte 0x15 in `decodeOpcodeF`. -/
def isFx15 (op : Nat) : Prop := (op &&& 0xF000) >>> 12 = 15 ∧ (op &&& 0x00FF) = 0x15

instance decIsFx15 (op : Nat) : Decidable (isFx15 op) :=
  inferInstanceAs (Decidable (_ ∧ _))

/-- Run `k` calls of `EmulateCycle` one after the other, stopping at the first
fault. -/
def runSteps : Nat → Chip8 → Except Fault Chip8
  | 0, c => .ok c
  | k + 1, c =>
    match EmulateCycle c with
    | .ok c1 => runSteps k c1
    | .error e => .error e

/-- The state after one call of `EmulateCycle`, or `c` itself when the call
faults. -/
def stepOr (c : Chip8) : Chip8 :=
  match EmulateCycle c with
  | .ok c1 => c1
  | .error _ => c

/-- The state `c` with framebuffer cells 0, 1, ... set to the listed values and the
remaining cells set to zero. -/
def withScreen (c : Chip8) (ps : List Nat) : Chip8 :=
  { c with screen := fun p => ps.getD p 0 }

/-- The state `c` with stack entries 0, 1, ... set to the listed values, the
remaining entries set to zero, and the stack pointer set to `sp`. -/
def withStack (c : Chip8) (vs : List Nat) (sp : Nat) : Chip8 :=
  { c with stack := fun k => vs.getD k 0, sp := sp }

/-- Every cell of the 64 * 32 framebuffer holds 0 or 1. -/
def Bits (c : Chip8) : Prop := ∀ p, p < 2048 → c.screen p = 0 ∨ c.screen p = 1

/-- The states that the host can reach: construction runs `init`; afterwards the
host may load a program (kept when `LoadApplication` returns true), write a byte
into one of the 16 key-pad entries, or call `EmulateCycle` (kept when the call
makes no access outside an array). -/
inductive Reachable : Chip8 → Prop where
  | reset (c0 : Chip8) : Reachable (init c0)
  | load (c : Chip8) (bytes : List (Fin 256)) :
      Reachable c → (LoadApplication (some bytes) c).1 = true →
      Reachable (LoadApplication (some bytes) c).2
  | key (c : Chip8) (k v : Nat) :
      Reachable c → k < 16 → v < 256 → Reachable { c with keys := setAt c.keys k v }
  | step (c c' : Chip8) : Reachable c → EmulateCycle c = .ok c' → Reachable c'

/-- The accesses that the handler of the instruction word `op` makes in state `c`
stay inside the arrays: the stack index for 00EE and 2NNN, the key-pad index
`V[x]` for the key skips, the sprite rows and the cells of the set sprite bits
for DXYN, and the memory range for FX33, FX55 and FX65. The other handlers index
arrays only through masked register numbers. -/
def InBounds (c : Chip8) (op : Nat) : Prop :=
  match (op &&& 0xF000) >>> 12 with
  | 0 => (op &&& 0x0002) >>> 1 = 1 → toU16 ((c.sp : Int) - 1) < 16
  | 2 => c.sp < 16
  | 13 =>
    ∀ i, i < (op &&& 0x000F) % 256 →
      c.I + i < 4096 ∧
      ∀ j, j < 8 → (c.memory (c.I + i) &&& (0x80 >>> j)) ≠ 0 →
        64 * (c.V ((op &&& 0x00F0) >>> 4) + i) + c.V ((op &&& 0x0F00) >>> 8) + j < 64 * 32
  | 14 => c.V ((op &&& 0x0F00) >>> 8) < 16
  | 15 =>
    ((op &&& 0x00FF) = 0x33 → c.I + 2 < 4096) ∧
    ((op &&& 0x00FF) = 0x55 ∨ (op &&& 0x00FF) = 0x65 →
      c.I + ((op &&& 0x0F00) >>> 8 + 1) ≤ 4096)
  | _ => True

instance decInBounds (c : Chip8) (op : Nat) : Decidable (InBounds c op) := by
  unfold InBounds
  split <;> infer_instance

/-- The next `k` steps from state `c` fetch inside memory, execute no FX15, and
make no access outside an array. -/
def SafeRun : Nat → Chip8 → Prop
  | 0, _ => True
  | k + 1, c =>
    c.pc + 1 < 4096 ∧ ¬ isFx15 (nextWord c) ∧ InBounds c (nextWord c) ∧ SafeRun k (stepOr c)

instance decSafeRun : (k : Nat) → (c : Chip8) → Decidable (SafeRun k c)
  | 0, _ => isTrue trivial
  | k + 1, c =>
    have := decSafeRun k (stepOr c)
    inferInstanceAs (Decidable (_ ∧ _ ∧ _ ∧ _))

theorem and_shl_shr (a m k : Nat) : (a &&& (m <<< k)) >>> k = (a >>> k) &&& m := by
  apply Nat.eq_of_testBit_eq
  intro j
  simp [Nat.testBit_shiftLeft, Nat.testBit_shiftRight, Nat.testBit_and]

theorem and_0F00 (op : Nat) : (op &&& 0x0F00) >>> 8 = op / 256 % 16 := by
  have h := and_shl_shr op 15 8
  have e : (15 : Nat) <<< 8 = 3840 := by decide
  rw [e] at h
  rw [h, Nat.shiftRight_eq_div_pow]
  exact Nat.and_pow_two_sub_one_eq_mod _ 4

theorem and_00F0 (op : Nat) : (op &&& 0x00F0) >>> 4 = op / 16 % 16 := by
  have h := and_shl_shr op 15 4
  have e : (15 : Nat) <<< 4 = 240 := by decide
  rw [e] at h
  rw [h, Nat.shiftRight_eq_div_pow]
  exact Nat.and_pow_two_sub_one_eq_mod _ 4

theorem and_F000 (op : Nat) : (op &&& 0xF000) >>> 12 = op / 4096 % 16 := by
  have h := and_shl_shr op 15 12
  have e : (15 : Nat) <<< 12 = 61440 := by decide
  rw [e] at h
  rw [h, Nat.shiftRight_eq_div_pow]
  exact Nat.and_pow_two_sub_one_eq_mod _ 4

theorem and_0002 (op : Nat) : (op &&& 0x0002) >>> 1 = op / 2 % 2 := by
  have h := and_shl_shr op 1 1
  have e : (1 : Nat) <<< 1 = 2 := by decide
  rw [e] at h
  rw [h, Nat.shiftRight_eq_div_pow]
  exact Nat.and_pow_two_sub_one_eq_mod _ 1

theorem and_0FFF (op : Nat) : op &&& 0x0FFF = op % 4096 :=
  Nat.and_pow_two_sub_one_eq_mod op 12

theorem and_00FF (op : Nat) : op &&& 0x00FF = op % 256 :=
  Nat.and_pow_two_sub_one_eq_mod op 8

theorem and_000F (op : Nat) : op &&& 0x000F = op % 16 :=
  Nat.and_pow_two_sub_one_eq_mod op 4

theorem and_0007 (op : Nat) : op &&& 0x0007 = op % 8 :=
  Nat.and_pow_two_sub_one_eq_mod op 3

theorem and_0001 (op : Nat) : op &&& 0x0001 = op % 2 :=
  Nat.and_pow_two_sub_one_eq_mod op 1

theorem and_0008 (op : Nat) : op &&& 0x0008 = 8 * (op / 8 % 2) := by
  have h := Nat.and_two_pow op 3
  have h2 := Nat.toNat_testBit op 3
  rw [h2] at h
  simp at h
  omega

theorem shl8_or (a b : Nat) (hb : b < 256) : (a <<< 8) ||| b = a * 256 + b := by
  have h : 2 ^ 8 * a + b = 2 ^ 8 * a ||| b := Nat.mul_add_lt_is_or (by simpa using hb) a
  rw [Nat.shiftLeft_eq, Nat.mul_comm a (2 ^ 8), ← h]

theorem fetch_of_Fetches (c : Chip8) (op : Nat) (h : Fetches c op) :
    fetch c = .ok { c with opcode := op } := by
  obtain ⟨h1, h2, h3, h4⟩ := h
  unfold fetch
  rw [if_pos h1, h2, h3, shl8_or _ _ (Nat.mod_lt _ (by decide))]
  have : (op / 256 * 256 + op % 256) % 65536 = op := by omega
  rw [this]

theorem EmulateCycle_of_Fetches (c : Chip8) (op : Nat) (h : Fetches c op) :
    EmulateCycle c =
      (decodeTable (op / 4096) { c with opcode := op }).map
        (fun c2 => updateTimers { c2 with pc := (c2.pc + 2) % 65536 }) := by
  have h4 : op < 65536 := h.2.2.2
  unfold EmulateCycle
  rw [fetch_of_Fetches c op h]
  have e : op / 4096 % 16 = op / 4096 := by omega
  simp only [bind, Except.bind, and_F000, e]
  cases decodeTable (op / 4096) { c with opcode := op } <;> rfl

@[simp] theorem updateTimers_V (c : Chip8) : (updateTimers c).V = c.V := by
  unfold updateTimers; simp only []; split_ifs <;> rfl
@[simp] theorem updateTimers_pc (c : Chip8) : (updateTimers c).pc = c.pc := by
  unfold updateTimers; simp only []; split_ifs <;> rfl

@[simp] theorem updateTimers_I (c : Chip8) : (updateTimers c).I = c.I := by
  unfold updateTimers; simp only []; split_ifs <;> rfl
@[simp] theorem updateTimers_sp (c : Chip8) : (updateTimers c).sp = c.sp := by
  unfold updateTimers; simp only []; split_ifs <;> rfl
@[simp] theorem updateTimers_stack (c : Chip8) : (updateTimers c).stack = c.stack := by
  unfold updateTimers; simp only []; split_ifs <;> rfl
@[simp] theorem updateTimers_memory (c : Chip8) : (updateTimers c).memory = c.memory := by
  unfold updateTimers; simp only []; split_ifs <;> rfl
@[simp] theorem updateTimers_screen (c : Chip8) : (updateTimers c).screen = c.screen := by
  unfold updateTimers; simp only []; split_ifs <;> rfl
@[simp] theorem updateTimers_keys (c : Chip8) : (updateTimers c).keys = c.keys := by
  unfold updateTimers; simp only []; split_ifs <;> rfl
@[simp] theorem updateTimers_opcode (c : Chip8) : (updateTimers c).opcode = c.opcode := by
  unfold updateTimers; simp only []; split_ifs <;> rfl

theorem WF_blank : WF blank := by
  constructor <;> intros <;> simp [blank]

theorem fontset_lt (a : Nat) : fontset.getD a 0 < 256 := by
  by_cases h : a < 80
  · interval_cases a <;> decide
  · rw [List.getD_eq_default _ _ (by simpa [fontset] using h)]; decide

theorem WF_init (c : Chip8) (h : WF c) : WF (init c) := by
  constructor <;> intros <;> simp only [init] <;> try decide
  · exact h.stack_lt _
  · split_ifs
    · exact fontset_lt _
    · decide

theorem WF_withProgram (op : Nat) (h : op < 65536) : WF (withProgram op) := by
  have h0 := WF_init blank WF_blank
  constructor
  · exact h0.screen_lt
  · exact h0.keys_lt
  · exact h0.pc_lt
  · exact h0.opcode_lt
  · exact h0.I_lt
  · exact h0.sp_lt
  · exact h0.V_lt
  · exact h0.stack_lt
  · intro a
    have := h0.memory_lt a
    simp only [withProgram, setAt]
    split_ifs <;> omega
  · exact h0.delay_lt
  · exact h0.sound_lt

theorem Fetches_withProgram (op : Nat) (h : op < 65536) : Fetches (withProgram op) op := by
  refine ⟨?_, ?_, ?_, h⟩ <;> simp [withProgram, setAt, init]

theorem WF_withV (c : Chip8) (vs : List Nat) (h : WF c) (hv : ∀ v ∈ vs, v < 256) :
    WF (withV c vs) := by
  constructor
  · exact h.screen_lt
  · exact h.keys_lt
  · exact h.pc_lt
  · exact h.opcode_lt
  · exact h.I_lt
  · exact h.sp_lt
  · intro k
    simp only [withV]
    by_cases hk : k < vs.length
    · rw [List.getD_eq_getElem _ _ hk]; exact hv _ (List.getElem_mem _)
    · rw [List.getD_eq_default _ _ (by omega)]; decide
  · exact h.stack_lt
  · exact h.memory_lt
  · exact h.delay_lt
  · exact h.sound_lt

theorem Fetches_withV (c : Chip8) (vs : List Nat) (op : Nat) (h : Fetches c op) :
    Fetches (withV c vs) op := h

theorem shiftRight_step (c : Chip8) (x y : Nat) (hx : x ≤ 14) (hy : y ≤ 15)
    (hc : WF c) (hfc : Fetches c (0x8006 + 256 * x + 16 * y)) :
    ∃ c', EmulateCycle c = .ok c' ∧
      c'.V 0xF = c.V x % 2 ∧ c'.V x = c.V x / 2 ∧
      (∀ k, k ≠ x → k ≠ 0xF → c'.V k = c.V k) := by
  have hVx := hc.V_lt x
  rw [EmulateCycle_of_Fetches c _ hfc]
  have e1 : (0x8006 + 256 * x + 16 * y) / 4096 = 8 := by omega
  rw [e1]
  simp only [decodeTable, decodeOpcode8, and_0008, and_0007]
  have e2 : 8 * ((0x8006 + 256 * x + 16 * y) / 8 % 2) = 0 := by omega
  have e3 : (0x8006 + 256 * x + 16 * y) % 8 = 6 := by omega
  rw [if_pos e2, e3]
  simp only [opcode8DecodeTable, bitwiseShiftRight, opX, and_0F00, and_0001]
  have e4 : (0x8006 + 256 * x + 16 * y) / 256 % 16 = x := by omega
  rw [e4]
  have hx15 : x ≠ 15 := by omega
  have hx15r : 15 ≠ x := by omega
  refine ⟨_, rfl, ?_, ?_, ?_⟩
  · simp [setAt, hx15, hx15r]
    omega
  · simp [setAt, hx15, hx15r, Nat.shiftRight_eq_div_pow]
    omega
  · intro k hk1 hk2
    simp [setAt, hk1, hk2]

theorem shiftLeft_step (c : Chip8) (x y : Nat) (hx : x ≤ 14) (hy : y ≤ 15)
    (hc : WF c) (hfc : Fetches c (0x800E + 256 * x + 16 * y)) :
    ∃ c', EmulateCycle c = .ok c' ∧
      c'.V 0xF = c.V x / 128 ∧ c'.V x = (2 * c.V x) % 256 ∧
      (∀ k, k ≠ x → k ≠ 0xF → c'.V k = c.V k) := by
  have hVx := hc.V_lt x
  rw [EmulateCycle_of_Fetches c _ hfc]
  have e1 : (0x800E + 256 * x + 16 * y) / 4096 = 8 := by omega
  rw [e1]
  simp only [decodeTable, decodeOpcode8, and_0008, and_0007]
  have e2 : ¬ 8 * ((0x800E + 256 * x + 16 * y) / 8 % 2) = 0 := by omega
  rw [if_neg e2]
  simp only [opcode8DecodeTable, bitwiseShiftLeft, opX, and_0F00]
  have e4 : (0x800E + 256 * x + 16 * y) / 256 % 16 = x := by omega
  rw [e4]
  have hx15 : x ≠ 15 := by omega
  have hx15r : 15 ≠ x := by omega
  refine ⟨_, rfl, ?_, ?_, ?_⟩
  · simp [setAt, hx15, hx15r, Nat.shiftRight_eq_div_pow]
    omega
  · simp [setAt, hx15, hx15r, Nat.shiftLeft_eq]
    omega
  · intro k hk1 hk2
    simp [setAt, hk1, hk2]


theorem WF_setV (c : Chip8) (k v : Nat) (h : WF c) (hv : v < 256) :
    WF { c with V := setAt c.V k v } := by
  constructor
  · exact h.screen_lt
  · exact h.keys_lt
  · exact h.pc_lt
  · exact h.opcode_lt
  · exact h.I_lt
  · exact h.sp_lt
  · intro j
    have := h.V_lt j
    simp only [setAt]
    split_ifs <;> omega
  · exact h.stack_lt
  · exact h.memory_lt
  · exact h.delay_lt
  · exact h.sound_lt

theorem skip_3xnn (c : Chip8) (x nn : Nat) (hx : x ≤ 15) (hnn : nn ≤ 255)
    (hf : Fetches c (0x3000 + 256 * x + nn)) :
    ∃ c', EmulateCycle c = .ok c' ∧
      c'.pc = (if c.V x = nn then c.pc + 4 else c.pc + 2) ∧
      c'.V = c.V ∧ c'.I = c.I ∧ c'.sp = c.sp ∧ c'.stack = c.stack ∧
      c'.memory = c.memory ∧ c'.screen = c.screen := by
  have hpc := hf.1
  rw [EmulateCycle_of_Fetches c _ hf]
  have e1 : (0x3000 + 256 * x + nn) / 4096 = 3 := by omega
  rw [e1]
  simp only [decodeTable, skipInstructionIfEqualsN, opX, and_0F00, and_00FF]
  have e2 : (0x3000 + 256 * x + nn) / 256 % 16 = x := by omega
  have e3 : (0x3000 + 256 * x + nn) % 256 = nn := by omega
  rw [e2, e3]
  by_cases h : c.V x = nn
  · rw [if_pos h, if_pos h]
    refine ⟨_, rfl, ?_, ?_, ?_, ?_, ?_, ?_, ?_⟩ <;> simp
    omega
  · rw [if_neg h, if_neg h]
    refine ⟨_, rfl, ?_, ?_, ?_, ?_, ?_, ?_, ?_⟩ <;> simp
    omega

theorem skip_4xnn (c : Chip8) (x nn : Nat) (hx : x ≤ 15) (hnn : nn ≤ 255)
    (hf : Fetches c (0x4000 + 256 * x + nn)) :
    ∃ c', EmulateCycle c = .ok c' ∧
      c'.pc = (if c.V x ≠ nn then c.pc + 4 else c.pc + 2) ∧
      c'.V = c.V ∧ c'.I = c.I ∧ c'.sp = c.sp ∧ c'.stack = c.stack ∧
      c'.memory = c.memory ∧ c'.screen = c.screen := by
  have hpc := hf.1
  rw [EmulateCycle_of_Fetches c _ hf]
  have e1 : (0x4000 + 256 * x + nn) / 4096 = 4 := by omega
  rw [e1]
  simp only [decodeTable, skipInstructionIfNotEqualsN, opX, and_0F00, and_00FF]
  have e2 : (0x4000 + 256 * x + nn) / 256 % 16 = x := by omega
  have e3 : (0x4000 + 256 * x + nn) % 256 = nn := by omega
  rw [e2, e3]
  by_cases h : c.V x ≠ nn
  · rw [if_pos h, if_pos h]
    refine ⟨_, rfl, ?_, ?_, ?_, ?_, ?_, ?_, ?_⟩ <;> simp
    omega
  · rw [if_neg h, if_neg h]
    refine ⟨_, rfl, ?_, ?_, ?_, ?_, ?_, ?_, ?_⟩ <;> simp
    omega

theorem skip_5xy0 (c : Chip8) (x y : Nat) (hx : x ≤ 15) (hy : y ≤ 15)
    (hf : Fetches c (0x5000 + 256 * x + 16 * y)) :
    ∃ c', EmulateCycle c = .ok c' ∧
      c'.pc = (if c.V x = c.V y then c.pc + 4 else c.pc + 2) ∧
      c'.V = c.V ∧ c'.I = c.I ∧ c'.sp = c.sp ∧ c'.stack = c.stack ∧
      c'.memory = c.memory ∧ c'.screen = c.screen := by
  have hpc := hf.1
  rw [EmulateCycle_of_Fetches c _ hf]
  have e1 : (0x5000 + 256 * x + 16 * y) / 4096 = 5 := by omega
  rw [e1]
  simp only [decodeTable, skipInstructionIfEquals, opX, opY, and_0F00, and_00F0]
  have e2 : (0x5000 + 256 * x + 16 * y) / 256 % 16 = x := by omega
  have e3 : (0x5000 + 256 * x + 16 * y) / 16 % 16 = y := by omega
  rw [e2, e3]
  by_cases h : c.V x = c.V y
  · rw [if_pos h, if_pos h]
    refine ⟨_, rfl, ?_, ?_, ?_, ?_, ?_, ?_, ?_⟩ <;> simp
    omega
  · rw [if_neg h, if_neg h]
    refine ⟨_, rfl, ?_, ?_, ?_, ?_, ?_, ?_, ?_⟩ <;> simp
    omega

theorem skip_9xy0 (c : Chip8) (x y : Nat) (hx : x ≤ 15) (hy : y ≤ 15)
    (hf : Fetches c (0x9000 + 256 * x + 16 * y)) :
    ∃ c', EmulateCycle c = .ok c' ∧
      c'.pc = (if c.V x ≠ c.V y then c.pc + 4 else c.pc + 2) ∧
      c'.V = c.V ∧ c'.I = c.I ∧ c'.sp = c.sp ∧ c'.stack = c.stack ∧
      c'.memory = c.memory ∧ c'.screen = c.screen := by
  have hpc := hf.1
  rw [EmulateCycle_of_Fetches c _ hf]
  have e1 : (0x9000 + 256 * x + 16 * y) / 4096 = 9 := by omega
  rw [e1]
  simp only [decodeTable, skipInstructionIfNotEquals, opX, opY, and_0F00, and_00F0]
  have e2 : (0x9000 + 256 * x + 16 * y) / 256 % 16 = x := by omega
  have e3 : (0x9000 + 256 * x + 16 * y) / 16 % 16 = y := by omega
  rw [e2, e3]
  by_cases h : c.V x ≠ c.V y
  · rw [if_pos h, if_pos h]
    refine ⟨_, rfl, ?_, ?_, ?_, ?_, ?_, ?_, ?_⟩ <;> simp
    omega
  · rw [if_neg h, if_neg h]
    refine ⟨_, rfl, ?_, ?_, ?_, ?_, ?_, ?_, ?_⟩ <;> simp
    omega

theorem find_range_none (p : Nat → Bool) (n : Nat) (h : ∀ i, i < n → p i = false) :
    (List.range n).find? p = none := by
  rw [List.find?_eq_none]
  intro i hi
  rw [List.mem_range] at hi
  simp [h i hi]

theorem find_range_some (p : Nat → Bool) (n i : Nat) (hi : i < n) (hp : p i = true)
    (hmin : ∀ j, j < i → p j = false) : (List.range n).find? p = some i := by
  induction n with
  | zero => omega
  | succ n ih =>
    rw [List.range_succ, List.find?_append]
    by_cases hn : i < n
    · rw [ih hn]; rfl
    · have e : i = n := by omega
      subst e
      rw [find_range_none p i hmin]
      simp [List.find?, hp]

theorem getKey_none (c : Chip8) (h : ∀ k, k < 16 → c.keys k = 0) :
    getKey c = .ok { c with pc := toU16 ((c.pc : Int) - 2) } := by
  unfold getKey
  rw [find_range_none _ 16 (fun k hk => by simp [h k hk])]

theorem getKey_some (c : Chip8) (i : Nat) (hi : i < 16) (hkey : c.keys i ≠ 0)
    (hmin : ∀ j, j < i → c.keys j = 0) :
    getKey c = .ok { c with V := setAt c.V (opX c) (i % 256) } := by
  unfold getKey
  rw [find_range_some _ 16 i hi (by simp [hkey]) (fun j hj => by simp [hmin j hj])]

theorem foldlM_inv {α : Type} (R : Chip8 → Prop) (f : Chip8 → α → Except Fault Chip8)
    (hf : ∀ b a b', R b → f b a = .ok b' → R b') :
    ∀ (l : List α) (b b' : Chip8), R b → l.foldlM f b = .ok b' → R b' := by
  intro l
  induction l with
  | nil =>
    intro b b' hb h
    simp only [List.foldlM_nil, pure, Except.pure] at h
    cases h
    exact hb
  | cons a l ih =>
    intro b b' hb h
    rw [List.foldlM_cons] at h
    cases hfa : f b a with
    | error e => rw [hfa] at h; cases h
    | ok b1 =>
      rw [hfa] at h
      exact ih b1 b' (hf b a b1 hb hfa) h

theorem drawPixel_SameTimers (x y row i j : Nat) (c0 b b' : Chip8) (hb : SameTimers c0 b)
    (h : drawPixel x y row i b j = .ok b') : SameTimers c0 b' := by
  unfold drawPixel at h
  split_ifs at h <;> cases h <;> exact hb

theorem drawRow_SameTimers (x y i : Nat) (c0 b b' : Chip8) (hb : SameTimers c0 b)
    (h : drawRow x y b i = .ok b') : SameTimers c0 b' := by
  unfold drawRow at h
  split_ifs at h
  · exact foldlM_inv (SameTimers c0) _
      (fun b a b' hb h => drawPixel_SameTimers x y _ i a c0 b b' hb h) _ _ _ hb h

theorem drawSprite_SameTimers (c c' : Chip8) (h : drawSprite c = .ok c') : SameTimers c c' := by
  unfold drawSprite at h
  exact foldlM_inv (SameTimers c) (drawRow (c.V (opX c)) (c.V (opY c)))
    (fun b a b' hb h => drawRow_SameTimers _ _ a c b b' hb h) _
    { c with V := setAt c.V 0xF 0 } c' ⟨rfl, rfl, rfl, rfl⟩ h

theorem decodeOpcode8_SameTimers (c c' : Chip8) (h : decodeOpcode8 c = .ok c') :
    SameTimers c c' := by
  unfold decodeOpcode8 at h
  split_ifs at h
  · have hlt : c.opcode &&& 7 < 8 := by rw [and_0007]; omega
    generalize c.opcode &&& 7 = n at h hlt
    interval_cases n <;> cases h <;> exact ⟨rfl, rfl, rfl, rfl⟩
  · cases h; exact ⟨rfl, rfl, rfl, rfl⟩

theorem decodeOpcode0_SameTimers (c c' : Chip8) (h : decodeOpcode0 c = .ok c') :
    SameTimers c c' := by
  unfold decodeOpcode0 at h
  have hlt : (c.opcode &&& 2) >>> 1 < 2 := by rw [and_0002]; omega
  generalize (c.opcode &&& 2) >>> 1 = n at h hlt
  interval_cases n
  · cases h; exact ⟨rfl, rfl, rfl, rfl⟩
  · simp only [opcode0DecodeTable, returnFromSubroutine] at h
    split_ifs at h
    cases h
    exact ⟨rfl, rfl, rfl, rfl⟩

theorem decodeOpcodeE_SameTimers (c c' : Chip8) (h : decodeOpcodeE c = .ok c') :
    SameTimers c c' := by
  unfold decodeOpcodeE at h
  have hlt : c.opcode &&& 1 < 2 := by rw [and_0001]; omega
  generalize c.opcode &&& 1 = n at h hlt
  interval_cases n
  · simp only [opcodeEDecodeTable, skipIfKeyPressed] at h
    split_ifs at h <;> cases h <;> exact ⟨rfl, rfl, rfl, rfl⟩
  · simp only [opcodeEDecodeTable, skipIfKeyNotPressed] at h
    split_ifs at h <;> cases h <;> exact ⟨rfl, rfl, rfl, rfl⟩

theorem decodeOpcodeF_SameTimers (c c' : Chip8) (h : decodeOpcodeF c = .ok c')
    (hno : ¬ (c.opcode % 256 = 0x15 ∨ c.opcode % 256 = 0x18)) : SameTimers c c' := by
  unfold decodeOpcodeF at h
  rw [and_00FF] at h
  split at h
  · cases h; exact ⟨rfl, rfl, rfl, rfl⟩
  · unfold getKey at h
    split at h <;> cases h <;> exact ⟨rfl, rfl, rfl, rfl⟩
  · omega
  · omega
  · cases h; exact ⟨rfl, rfl, rfl, rfl⟩
  · cases h; exact ⟨rfl, rfl, rfl, rfl⟩
  · by_cases b0 : c.I < 4096 <;> by_cases b1 : c.I + 1 < 4096 <;>
      by_cases b2 : c.I + 2 < 4096 <;>
      simp only [setBCD, writeMemory, bind, Except.bind, b0, b1, b2, if_true, if_false] at h <;>
      cases h
    exact ⟨rfl, rfl, rfl, rfl⟩
  · unfold storeRegisters at h
    split_ifs at h
    cases h
    exact ⟨rfl, rfl, rfl, rfl⟩
  · unfold loadRegisters at h
    split_ifs at h
    cases h
    exact ⟨rfl, rfl, rfl, rfl⟩
  · cases h; exact ⟨rfl, rfl, rfl, rfl⟩


theorem decodeTable_SameTimers (c c' : Chip8) (fam : Nat) (h : decodeTable fam c = .ok c')
    (hno : ¬ (fam = 15 ∧ (c.opcode % 256 = 0x15 ∨ c.opcode % 256 = 0x18))) :
    SameTimers c c' := by
  by_cases hfam : fam < 16
  · interval_cases fam
    · exact decodeOpcode0_SameTimers c c' h
    · cases h; exact ⟨rfl, rfl, rfl, rfl⟩
    · simp only [decodeTable, callSubroutine] at h
      split_ifs at h
      cases h
      exact ⟨rfl, rfl, rfl, rfl⟩
    · simp only [decodeTable, skipInstructionIfEqualsN] at h
      split_ifs at h <;> cases h <;> exact ⟨rfl, rfl, rfl, rfl⟩
    · simp only [decodeTable, skipInstructionIfNotEqualsN] at h
      split_ifs at h <;> cases h <;> exact ⟨rfl, rfl, rfl, rfl⟩
    · simp only [decodeTable, skipInstructionIfEquals] at h
      split_ifs at h <;> cases h <;> exact ⟨rfl, rfl, rfl, rfl⟩
    · cases h; exact ⟨rfl, rfl, rfl, rfl⟩
    · cases h; exact ⟨rfl, rfl, rfl, rfl⟩
    · exact decodeOpcode8_SameTimers c c' h
    · simp only [decodeTable, skipInstructionIfNotEquals] at h
      split_ifs at h <;> cases h <;> exact ⟨rfl, rfl, rfl, rfl⟩
    · cases h; exact ⟨rfl, rfl, rfl, rfl⟩
    · cases h; exact ⟨rfl, rfl, rfl, rfl⟩
    · cases h; exact ⟨rfl, rfl, rfl, rfl⟩
    · exact drawSprite_SameTimers c c' h
    · exact decodeOpcodeE_SameTimers c c' h
    · exact decodeOpcodeF_SameTimers c c' h (fun hh => hno ⟨rfl, hh⟩)
  · have e : decodeTable fam c = .error .tableOutOfBounds := by
      unfold decodeTable
      split <;> first | omega | rfl
    rw [e] at h; cases h

theorem updateTimers_delay (c : Chip8) :
    (updateTimers c).delay_timer = c.delay_timer - 1 := by
  unfold updateTimers
  by_cases h1 : c.delay_timer > 0 <;> by_cases h2 : c.sound_timer > 0 <;>
    by_cases h3 : c.sound_timer = 1 <;> by_cases h4 : c.soundEnabled = true <;>
    simp [h1, h2, h3, h4] <;> omega

theorem updateTimers_sound (c : Chip8) :
    (updateTimers c).sound_timer = c.sound_timer - 1 := by
  unfold updateTimers
  by_cases h1 : c.delay_timer > 0 <;> by_cases h2 : c.sound_timer > 0 <;>
    by_cases h3 : c.sound_timer = 1 <;> by_cases h4 : c.soundEnabled = true <;>
    simp [h1, h2, h3, h4] <;> omega

theorem updateTimers_cout (c : Chip8) :
    (updateTimers c).cout = c.cout ++
      (if c.sound_timer = 1 then
        (if c.soundEnabled then [Output.beepLine, Output.bell] else [Output.beepLine])
       else []) := by
  unfold updateTimers
  by_cases h1 : c.delay_timer > 0 <;> by_cases h2 : c.sound_timer > 0 <;>
    by_cases h3 : c.sound_timer = 1 <;> by_cases h4 : c.soundEnabled = true <;>
    simp [h1, h2, h3, h4]

theorem step_timers (c c' : Chip8) (op : Nat) (hf : Fetches c op)
    (hno : ¬ (op / 4096 = 15 ∧ (op % 256 = 0x15 ∨ op % 256 = 0x18)))
    (h : EmulateCycle c = .ok c') :
    c'.delay_timer = c.delay_timer - 1 ∧ c'.sound_timer = c.sound_timer - 1 ∧
      c'.cout = c.cout ++
        (if c.sound_timer = 1 then
          (if c.soundEnabled then [Output.beepLine, Output.bell] else [Output.beepLine])
         else []) := by
  rw [EmulateCycle_of_Fetches c op hf] at h
  cases hd : decodeTable (op / 4096) { c with opcode := op } with
  | error e => rw [hd] at h; cases h
  | ok c2 =>
    rw [hd] at h
    obtain ⟨t1, t2, t3, t4⟩ := decodeTable_SameTimers _ c2 _ hd hno
    simp only [Except.map] at h
    cases h
    rw [updateTimers_delay, updateTimers_sound, updateTimers_cout]
    simp only [t1, t2, t3, t4]
    exact ⟨trivial, trivial, trivial⟩

theorem bit_test (row j : Nat) (hj : j < 8) :
    (row &&& (0x80 >>> j)) ≠ 0 ↔ row / 2 ^ (7 - j) % 2 = 1 := by
  have h0 : (0x80 : Nat) >>> j = 2 ^ (7 - j) := by
    interval_cases j <;> decide
  rw [h0, Nat.and_two_pow, Nat.toNat_testBit]
  have hpos : 0 < 2 ^ (7 - j) := Nat.pos_pow_of_pos _ (by decide)
  constructor
  · intro h
    rcases Nat.mod_two_eq_zero_or_one (row / 2 ^ (7 - j)) with h1 | h1
    · simp [h1] at h
    · exact h1
  · intro h
    rw [h]
    omega

theorem foldlM_range_inv (f : Chip8 → Nat → Except Fault Chip8) (P : Nat → Chip8 → Prop)
    (n : Nat) (hstep : ∀ q b, q < n → P q b → ∃ b', f b q = .ok b' ∧ P (q + 1) b')
    (b : Chip8) (hb : P 0 b) :
    ∃ b', (List.range n).foldlM f b = .ok b' ∧ P n b' := by
  have key : ∀ m, m ≤ n → ∃ b', (List.range m).foldlM f b = .ok b' ∧ P m b' := by
    intro m
    induction m with
    | zero => intro _; exact ⟨b, rfl, hb⟩
    | succ m ih =>
      intro hm
      obtain ⟨b1, h1, p1⟩ := ih (by omega)
      obtain ⟨b2, h2, p2⟩ := hstep m b1 (by omega) p1
      refine ⟨b2, ?_, p2⟩
      rw [List.range_succ, List.foldlM_append, h1]
      simp only [bind, Except.bind, List.foldlM_cons, List.foldlM_nil, h2]
      rfl
  exact key n (Nat.le_refl n)

theorem Drawn_succ (i q i' j' : Nat) (hq : q < 8) :
    Drawn i (q + 1) i' j' ↔ Drawn i q i' j' ∨ (i' = i ∧ j' = q) := by
  unfold Drawn; omega

theorem Drawn_row (i i' j' : Nat) : Drawn i 8 i' j' ↔ Drawn (i + 1) 0 i' j' := by
  unfold Drawn; omega

theorem pix_inj (x y i q i' j' : Nat) (hq : q < 8) (hj : j' < 8)
    (h : pix x y i q = pix x y i' j') : i' = i ∧ j' = q := by
  unfold pix at h; omega

theorem xor_cell (v : Nat) (hv : v < 256) : (v ^^^ 1) % 256 = v ^^^ 1 := by
  have h : v ^^^ 1 < 2 ^ 8 := Nat.xor_lt_two_pow (by omega) (by omega)
  omega

theorem drawPixel_set (x y row i j : Nat) (b : Chip8) (h1 : (row &&& (0x80 >>> j)) ≠ 0)
    (h2 : pix x y i j < 2048) :
    drawPixel x y row i b j = .ok
      { b with
        V := if b.screen (pix x y i j) = 1 then setAt b.V 0xF 1 else b.V
        screen := setAt b.screen (pix x y i j) ((b.screen (pix x y i j) ^^^ 1) % 256) } := by
  unfold drawPixel
  unfold pix at h2 ⊢
  rw [if_pos h1, if_pos h2]
  by_cases h : b.screen (64 * (y + i) + x + j) = 1 <;> simp [h]

theorem drawPixel_step (c b : Chip8) (x y n i q : Nat)
    (hbyte : ∀ p, p < 2048 → c.screen p < 256)
    (hx : x ≤ 56) (hy : y + n ≤ 32) (hi : i < n) (hq : q < 8)
    (hinv : SpriteInv c x y i q b) :
    ∃ b', drawPixel x y (c.memory (c.I + i)) i b q = .ok b' ∧ SpriteInv c x y i (q + 1) b' := by
  have hp : pix x y i q < 2048 := by unfold pix; omega
  have hfresh : ∀ i' j', Drawn i q i' j' → pix x y i q ≠ pix x y i' j' := by
    intro i' j' hD heq
    have := pix_inj x y i q i' j' hq hD.1 heq
    unfold Drawn at hD; omega
  have hbp : b.screen (pix x y i q) = c.screen (pix x y i q) := hinv.rest _ hfresh
  have hold := hbyte _ hp
  by_cases hbit : spriteBit c i q = 1
  · have htest : (c.memory (c.I + i) &&& (0x80 >>> q)) ≠ 0 := (bit_test _ _ hq).2 hbit
    rw [drawPixel_set x y _ i q b htest hp]
    refine ⟨_, rfl, ?_⟩
    constructor
    · intro i' j' hD
      rw [Drawn_succ _ _ _ _ hq] at hD
      rcases hD with hD | ⟨rfl, rfl⟩
      · have hne := hfresh i' j' hD
        simp only [setAt, if_neg (Ne.symm hne)]
        exact hinv.drawn _ _ hD
      · simp only [setAt, if_true]
        rw [hbp, hbit, xor_cell _ hold]
    · intro p hpne
      have hne : p ≠ pix x y i q :=
        hpne i q ((Drawn_succ _ _ _ _ hq).2 (Or.inr ⟨rfl, rfl⟩))
      simp only [setAt, if_neg hne]
      apply hinv.rest
      intro i' j' hD
      exact hpne i' j' ((Drawn_succ _ _ _ _ hq).2 (Or.inl hD))
    · by_cases h1 : b.screen (pix x y i q) = 1
      · simp [h1, setAt]
      · simp only [if_neg h1]; exact hinv.flag01
    · by_cases h1 : b.screen (pix x y i q) = 1
      · simp only [if_pos h1, setAt, if_true, true_iff]
        exact ⟨i, q, (Drawn_succ _ _ _ _ hq).2 (Or.inr ⟨rfl, rfl⟩), hbit, by rw [← hbp]; exact h1⟩
      · simp only [if_neg h1]
        rw [hinv.flag]
        constructor
        · rintro ⟨i', j', hD, e1, e2⟩
          exact ⟨i', j', (Drawn_succ _ _ _ _ hq).2 (Or.inl hD), e1, e2⟩
        · rintro ⟨i', j', hD, e1, e2⟩
          rw [Drawn_succ _ _ _ _ hq] at hD
          rcases hD with hD | ⟨rfl, rfl⟩
          · exact ⟨i', j', hD, e1, e2⟩
          · exact absurd (hbp.trans e2) h1
    · exact hinv.index
    · exact hinv.mem
    · intro k hk
      by_cases h1 : b.screen (pix x y i q) = 1
      · simp only [if_pos h1, setAt, if_neg hk]; exact hinv.regs k hk
      · simp only [if_neg h1]; exact hinv.regs k hk
    · exact hinv.pc_eq
  · have htest : ¬ (c.memory (c.I + i) &&& (0x80 >>> q)) ≠ 0 :=
      fun h => hbit ((bit_test _ _ hq).1 h)
    unfold drawPixel
    rw [if_neg htest]
    refine ⟨b, rfl, ?_⟩
    have hb0 : spriteBit c i q = 0 := by
      have : spriteBit c i q < 2 := Nat.mod_lt _ (by decide)
      omega
    constructor
    · intro i' j' hD
      rw [Drawn_succ _ _ _ _ hq] at hD
      rcases hD with hD | ⟨rfl, rfl⟩
      · exact hinv.drawn _ _ hD
      · rw [hbp, hb0, Nat.xor_zero]
    · intro p hpne
      apply hinv.rest
      intro i' j' hD
      exact hpne i' j' ((Drawn_succ _ _ _ _ hq).2 (Or.inl hD))
    · exact hinv.flag01
    · rw [hinv.flag]
      constructor
      · rintro ⟨i', j', hD, h1, h2⟩
        exact ⟨i', j', (Drawn_succ _ _ _ _ hq).2 (Or.inl hD), h1, h2⟩
      · rintro ⟨i', j', hD, h1, h2⟩
        rw [Drawn_succ _ _ _ _ hq] at hD
        rcases hD with hD | ⟨rfl, rfl⟩
        · exact ⟨i', j', hD, h1, h2⟩
        · omega
    · exact hinv.index
    · exact hinv.mem
    · exact hinv.regs
    · exact hinv.pc_eq


theorem drawRow_step (c b : Chip8) (x y n i : Nat)
    (hbyte : ∀ p, p < 2048 → c.screen p < 256)
    (hx : x ≤ 56) (hy : y + n ≤ 32) (hI : c.I + n ≤ 4096) (hi : i < n)
    (hinv : SpriteInv c x y i 0 b) :
    ∃ b', drawRow x y b i = .ok b' ∧ SpriteInv c x y (i + 1) 0 b' := by
  unfold drawRow
  have hb : b.I + i < 4096 := by rw [hinv.index]; omega
  rw [if_pos hb, hinv.index, hinv.mem]
  obtain ⟨b', h1, h2⟩ :=
    foldlM_range_inv (drawPixel x y (c.memory (c.I + i)) i) (fun q b => SpriteInv c x y i q b) 8
      (fun q b hq hb => drawPixel_step c b x y n i q hbyte hx hy hi hq hb) b hinv
  refine ⟨b', h1, ?_⟩
  constructor
  · intro i' j' hD
    exact h2.drawn _ _ ((Drawn_row _ _ _).2 hD)
  · intro p hp
    exact h2.rest p (fun i' j' hD => hp i' j' ((Drawn_row _ _ _).1 hD))
  · exact h2.flag01
  · rw [h2.flag]
    constructor
    · rintro ⟨i', j', hD, e1, e2⟩
      exact ⟨i', j', (Drawn_row _ _ _).1 hD, e1, e2⟩
    · rintro ⟨i', j', hD, e1, e2⟩
      exact ⟨i', j', (Drawn_row _ _ _).2 hD, e1, e2⟩
  · exact h2.index
  · exact h2.mem
  · exact h2.regs
  · exact h2.pc_eq

theorem Drawn_done (n i' j' : Nat) : Drawn n 0 i' j' ↔ i' < n ∧ j' < 8 := by
  unfold Drawn; omega

theorem storeRegisters_step (c : Chip8) (x : Nat) (hx : x ≤ 15)
    (hf : Fetches c (0xF055 + 256 * x)) (hI : c.I + x ≤ 4095) :
    ∃ c', EmulateCycle c = .ok c' ∧
      (∀ k, k ≤ x → c'.memory (c.I + k) = c.V k) ∧
      (∀ a, (a < c.I ∨ c.I + x < a) → c'.memory a = c.memory a) ∧
      c'.V = c.V ∧ c'.I = c.I := by
  rw [EmulateCycle_of_Fetches c _ hf]
  have e1 : (0xF055 + 256 * x) / 4096 = 15 := by omega
  rw [e1]
  have e2 : (0xF055 + 256 * x) % 256 = 0x55 := by omega
  have e3 : (0xF055 + 256 * x) / 256 % 16 = x := by omega
  simp only [decodeTable, decodeOpcodeF, and_00FF, e2, storeRegisters, opX, and_0F00, e3]
  have hb : c.I + (x + 1) ≤ 4096 := by omega
  rw [if_pos hb]
  refine ⟨_, rfl, ?_, ?_, ?_, ?_⟩
  · intro k hk
    have hr : c.I ≤ c.I + k ∧ c.I + k < c.I + (x + 1) := by omega
    simp only [updateTimers_memory, if_pos hr, Nat.add_sub_cancel_left]
  · intro a ha
    have hr : ¬ (c.I ≤ a ∧ a < c.I + (x + 1)) := by omega
    simp only [updateTimers_memory, if_neg hr]
  · simp
  · simp

theorem loadRegisters_step (d : Chip8) (x : Nat) (hx : x ≤ 15)
    (hf : Fetches d (0xF065 + 256 * x)) (hI : d.I + x ≤ 4095) :
    ∃ d', EmulateCycle d = .ok d' ∧
      (∀ k, k ≤ x → d'.V k = d.memory (d.I + k)) ∧
      (∀ k, x < k → d'.V k = d.V k) ∧
      d'.memory = d.memory ∧ d'.I = d.I := by
  rw [EmulateCycle_of_Fetches d _ hf]
  have e1 : (0xF065 + 256 * x) / 4096 = 15 := by omega
  rw [e1]
  have e2 : (0xF065 + 256 * x) % 256 = 0x65 := by omega
  have e3 : (0xF065 + 256 * x) / 256 % 16 = x := by omega
  simp only [decodeTable, decodeOpcodeF, and_00FF, e2, loadRegisters, opX, and_0F00, e3]
  have hb : d.I + (x + 1) ≤ 4096 := by omega
  rw [if_pos hb]
  refine ⟨_, rfl, ?_, ?_, ?_, ?_⟩
  · intro k hk
    have hr : k < x + 1 := by omega
    simp only [updateTimers_V, if_pos hr]
  · intro k hk
    have hr : ¬ k < x + 1 := by omega
    simp only [updateTimers_V, if_neg hr]
  · simp
  · simp

theorem sprite_step (c : Chip8) (x y n : Nat) (hx : x ≤ 15) (hy : y ≤ 15) (hn : n ≤ 15)
    (hf : Fetches c (0xD000 + 256 * x + 16 * y + n))
    (hbyte : ∀ p, p < 2048 → c.screen p < 256)
    (hVx : c.V x ≤ 56) (hVy : c.V y + n ≤ 32) (hI : c.I + n ≤ 4096) :
    ∃ c', EmulateCycle c = .ok c' ∧
      (∀ i j, i < n → j < 8 →
        c'.screen (pix (c.V x) (c.V y) i j) =
          c.screen (pix (c.V x) (c.V y) i j) ^^^ spriteBit c i j) ∧
      (∀ p, (∀ i j, i < n → j < 8 → p ≠ pix (c.V x) (c.V y) i j) → c'.screen p = c.screen p) ∧
      (c'.V 0xF = 1 ↔
        ∃ i j, i < n ∧ j < 8 ∧ spriteBit c i j = 1 ∧ c.screen (pix (c.V x) (c.V y) i j) = 1) ∧
      (c'.V 0xF = 1 ∨ c'.V 0xF = 0) ∧
      c'.I = c.I ∧ c'.memory = c.memory ∧ (∀ k, k ≠ 0xF → c'.V k = c.V k) ∧
      c'.pc = c.pc + 2 := by
  have hpc := hf.1
  rw [EmulateCycle_of_Fetches c _ hf]
  have e1 : (0xD000 + 256 * x + 16 * y + n) / 4096 = 13 := by omega
  rw [e1]
  simp only [decodeTable, drawSprite, opX, opY, and_0F00, and_00F0, and_000F]
  have e2 : (0xD000 + 256 * x + 16 * y + n) / 256 % 16 = x := by omega
  have e3 : (0xD000 + 256 * x + 16 * y + n) / 16 % 16 = y := by omega
  have e4 : (0xD000 + 256 * x + 16 * y + n) % 16 % 256 = n := by omega
  rw [e2, e3, e4]
  have h0 : SpriteInv c (c.V x) (c.V y) 0 0
      { c with opcode := 0xD000 + 256 * x + 16 * y + n, V := setAt c.V 0xF 0 } := by
    constructor
    · intro i' j' hD; unfold Drawn at hD; omega
    · intro p _; rfl
    · right; simp [setAt]
    · simp only [setAt, if_true]
      constructor
      · intro h; omega
      · rintro ⟨i', j', hD, -⟩; unfold Drawn at hD; omega
    · rfl
    · rfl
    · intro k hk; simp [setAt, hk]
    · rfl
  obtain ⟨b', h1, h2⟩ :=
    foldlM_range_inv (drawRow (c.V x) (c.V y)) (fun i b => SpriteInv c (c.V x) (c.V y) i 0 b) n
      (fun i b hi hb => drawRow_step c b (c.V x) (c.V y) n i hbyte hVx hVy hI hi hb) _ h0
  rw [h1]
  refine ⟨_, rfl, ?_, ?_, ?_, ?_, ?_, ?_, ?_, ?_⟩
  · intro i j hi hj
    simp only [updateTimers_screen]
    exact h2.drawn i j ((Drawn_done _ _ _).2 ⟨hi, hj⟩)
  · intro p hp
    simp only [updateTimers_screen]
    apply h2.rest
    intro i' j' hD
    exact hp i' j' ((Drawn_done _ _ _).1 hD).1 ((Drawn_done _ _ _).1 hD).2
  · simp only [updateTimers_V]
    rw [h2.flag]
    constructor
    · rintro ⟨i', j', hD, e1, e2⟩
      exact ⟨i', j', ((Drawn_done _ _ _).1 hD).1, ((Drawn_done _ _ _).1 hD).2, e1, e2⟩
    · rintro ⟨i', j', hi, hj, e1, e2⟩
      exact ⟨i', j', (Drawn_done _ _ _).2 ⟨hi, hj⟩, e1, e2⟩
  · simp only [updateTimers_V]; exact h2.flag01
  · simp only [updateTimers_I]; exact h2.index
  · simp only [updateTimers_memory]; exact h2.mem
  · intro k hk; simp only [updateTimers_V]; exact h2.regs k hk
  · simp only [updateTimers_pc, h2.pc_eq]; omega

theorem decodeTable_delay (c c' : Chip8) (fam : Nat) (h : decodeTable fam c = .ok c')
    (hno : ¬ (fam = 15 ∧ c.opcode % 256 = 0x15)) : c'.delay_timer = c.delay_timer := by
  by_cases h18 : fam = 15 ∧ c.opcode % 256 = 0x18
  · obtain ⟨hfam, hlow⟩ := h18
    subst hfam
    simp only [decodeTable, decodeOpcodeF, and_00FF, hlow, setSound] at h
    cases h
    rfl
  · exact (decodeTable_SameTimers c c' fam h (by
      rintro ⟨h1, h2 | h2⟩
      · exact hno ⟨h1, h2⟩
      · exact h18 ⟨h1, h2⟩)).1

theorem step_delay (c c' : Chip8) (h : EmulateCycle c = .ok c')
    (hno : ¬ isFx15 (nextWord c)) : c'.delay_timer = c.delay_timer - 1 := by
  unfold EmulateCycle fetch at h
  by_cases hb : c.pc + 1 < 4096
  · simp only [if_pos hb, bind, Except.bind] at h
    cases hd : decodeTable
        (((c.memory c.pc <<< 8 ||| c.memory (c.pc + 1)) % 65536 &&& 0xF000) >>> 12)
        { c with opcode := (c.memory c.pc <<< 8 ||| c.memory (c.pc + 1)) % 65536 } with
    | error e => rw [hd] at h; cases h
    | ok c2 =>
      rw [hd] at h
      simp only [pure, Except.pure] at h
      cases h
      rw [updateTimers_delay]
      have hk := decodeTable_delay _ c2 _ hd (by
        rintro ⟨h1, h2⟩
        apply hno
        unfold isFx15 nextWord
        exact ⟨h1, by rw [and_00FF]; exact h2⟩)
      simp only [hk]
  · simp only [if_neg hb, bind, Except.bind] at h
    cases h

theorem runSteps_delay (k : Nat) :
    ∀ (c ck : Chip8), runSteps k c = .ok ck →
      (∀ j cj, j < k → runSteps j c = .ok cj → ¬ isFx15 (nextWord cj)) →
      ck.delay_timer = c.delay_timer - k := by
  induction k with
  | zero =>
    intro c ck h _
    simp only [runSteps] at h
    cases h
    rfl
  | succ k ih =>
    intro c ck h hno
    have h0 : ¬ isFx15 (nextWord c) := hno 0 c (by omega) rfl
    simp only [runSteps] at h
    cases hs : EmulateCycle c with
    | error e => rw [hs] at h; cases h
    | ok c1 =>
      rw [hs] at h
      simp only at h
      have hd := step_delay c c1 hs h0
      have hrest := ih c1 ck h (by
        intro j cj hj hrun
        apply hno (j + 1) cj (by omega)
        simp only [runSteps, hs]
        exact hrun)
      rw [hrest, hd]
      omega

theorem drawPixel_total (c b : Chip8) (x y i j : Nat)
    (hI : b.I = c.I) (hm : b.memory = c.memory)
    (hb : (c.memory (c.I + i) &&& (0x80 >>> j)) ≠ 0 → 64 * (y + i) + x + j < 64 * 32) :
    ∃ b', drawPixel x y (c.memory (c.I + i)) i b j = .ok b' ∧
      b'.I = c.I ∧ b'.memory = c.memory := by
  unfold drawPixel
  by_cases h1 : (c.memory (c.I + i) &&& (0x80 >>> j)) ≠ 0
  · rw [if_pos h1, if_pos (hb h1)]
    by_cases hs : b.screen (64 * (y + i) + x + j) = 1
    · simp only [if_pos hs]
      exact ⟨_, rfl, hI, hm⟩
    · simp only [if_neg hs]
      exact ⟨_, rfl, hI, hm⟩
  · rw [if_neg h1]
    exact ⟨b, rfl, hI, hm⟩

theorem drawRow_total (c b : Chip8) (x y i : Nat)
    (hI : b.I = c.I) (hm : b.memory = c.memory) (hrow : c.I + i < 4096)
    (hb : ∀ j, j < 8 → (c.memory (c.I + i) &&& (0x80 >>> j)) ≠ 0 →
      64 * (y + i) + x + j < 64 * 32) :
    ∃ b', drawRow x y b i = .ok b' ∧ b'.I = c.I ∧ b'.memory = c.memory := by
  unfold drawRow
  have hr : b.I + i < 4096 := by rw [hI]; exact hrow
  rw [if_pos hr, hI, hm]
  exact foldlM_range_inv (drawPixel x y (c.memory (c.I + i)) i)
    (fun _ b => b.I = c.I ∧ b.memory = c.memory) 8
    (fun q b hq hinv => drawPixel_total c b x y i q hinv.1 hinv.2 (hb q hq)) b ⟨hI, hm⟩

theorem drawSprite_total (c : Chip8)
    (h : ∀ i, i < (c.opcode &&& 0x000F) % 256 →
      c.I + i < 4096 ∧
      ∀ j, j < 8 → (c.memory (c.I + i) &&& (0x80 >>> j)) ≠ 0 →
        64 * (c.V (opY c) + i) + c.V (opX c) + j < 64 * 32) :
    ∃ c', drawSprite c = .ok c' := by
  unfold drawSprite
  obtain ⟨b', hb', -⟩ :=
    foldlM_range_inv (drawRow (c.V (opX c)) (c.V (opY c)))
      (fun _ b => b.I = c.I ∧ b.memory = c.memory) ((c.opcode &&& 0x000F) % 256)
      (fun i b hi hinv =>
        drawRow_total c b (c.V (opX c)) (c.V (opY c)) i hinv.1 hinv.2 (h i hi).1 (h i hi).2)
      { c with V := setAt c.V 0xF 0 } ⟨rfl, rfl⟩
  exact ⟨b', hb'⟩

theorem decodeTable_total (c : Chip8) (hin : InBounds c c.opcode) :
    ∃ c', decodeTable ((c.opcode &&& 0xF000) >>> 12) c = .ok c' := by
  unfold InBounds at hin
  have hlt : (c.opcode &&& 0xF000) >>> 12 < 16 := by rw [and_F000]; omega
  generalize (c.opcode &&& 0xF000) >>> 12 = f at hin hlt
  interval_cases f
  · simp only [decodeTable, decodeOpcode0]
    have hn : (c.opcode &&& 2) >>> 1 < 2 := by rw [and_0002]; omega
    simp only at hin
    generalize (c.opcode &&& 2) >>> 1 = n at hin hn
    interval_cases n
    · exact ⟨_, rfl⟩
    · simp only [opcode0DecodeTable, returnFromSubroutine, if_pos (hin rfl)]
      exact ⟨_, rfl⟩
  · exact ⟨_, rfl⟩
  · simp only at hin
    simp only [decodeTable, callSubroutine, if_pos hin]
    exact ⟨_, rfl⟩
  · simp only [decodeTable, skipInstructionIfEqualsN]
    split_ifs <;> exact ⟨_, rfl⟩
  · simp only [decodeTable, skipInstructionIfNotEqualsN]
    split_ifs <;> exact ⟨_, rfl⟩
  · simp only [decodeTable, skipInstructionIfEquals]
    split_ifs <;> exact ⟨_, rfl⟩
  · exact ⟨_, rfl⟩
  · exact ⟨_, rfl⟩
  · simp only [decodeTable, decodeOpcode8]
    split_ifs
    · have hn : c.opcode &&& 7 < 8 := by rw [and_0007]; omega
      generalize c.opcode &&& 7 = n at hn
      interval_cases n <;> exact ⟨_, rfl⟩
    · exact ⟨_, rfl⟩
  · simp only [decodeTable, skipInstructionIfNotEquals]
    split_ifs <;> exact ⟨_, rfl⟩
  · exact ⟨_, rfl⟩
  · exact ⟨_, rfl⟩
  · exact ⟨_, rfl⟩
  · simp only at hin
    exact drawSprite_total c hin
  · simp only at hin
    simp only [decodeTable, decodeOpcodeE]
    have hn : c.opcode &&& 1 < 2 := by rw [and_0001]; omega
    have hv : c.V (opX c) < 16 := hin
    generalize c.opcode &&& 1 = n at hn
    interval_cases n
    · simp only [opcodeEDecodeTable, skipIfKeyPressed, if_pos hv]
      split_ifs <;> exact ⟨_, rfl⟩
    · simp only [opcodeEDecodeTable, skipIfKeyNotPressed, if_pos hv]
      split_ifs <;> exact ⟨_, rfl⟩
  · simp only at hin
    obtain ⟨h33, h55⟩ := hin
    simp only [decodeTable, decodeOpcodeF]
    split
    · exact ⟨_, rfl⟩
    · unfold getKey
      split <;> exact ⟨_, rfl⟩
    · exact ⟨_, rfl⟩
    · exact ⟨_, rfl⟩
    · exact ⟨_, rfl⟩
    · exact ⟨_, rfl⟩
    · rename_i heq
      have b2 : c.I + 2 < 4096 := h33 heq
      have b1 : c.I + 1 < 4096 := by omega
      have b0 : c.I < 4096 := by omega
      simp only [setBCD, writeMemory, bind, Except.bind, b0, b1, b2, if_true]
      exact ⟨_, rfl⟩
    · rename_i heq
      have hb : c.I + (opX c + 1) ≤ 4096 := h55 (Or.inl heq)
      simp only [storeRegisters, if_pos hb]
      exact ⟨_, rfl⟩
    · rename_i heq
      have hb : c.I + (opX c + 1) ≤ 4096 := h55 (Or.inr heq)
      simp only [loadRegisters, if_pos hb]
      exact ⟨_, rfl⟩
    · exact ⟨_, rfl⟩

theorem EmulateCycle_total (c : Chip8) (hpc : c.pc + 1 < 4096)
    (hin : InBounds c (nextWord c)) : EmulateCycle c = .ok (stepOr c) := by
  have hex : ∃ c', EmulateCycle c = .ok c' := by
    unfold EmulateCycle fetch
    simp only [if_pos hpc, bind, Except.bind]
    obtain ⟨c2, h2⟩ := decodeTable_total
      { c with opcode := (c.memory c.pc <<< 8 ||| c.memory (c.pc + 1)) % 65536 } hin
    simp only at h2
    rw [h2]
    exact ⟨_, rfl⟩
  obtain ⟨c', h⟩ := hex
  unfold stepOr
  rw [h]

theorem nextWord_of_Fetches (c : Chip8) (op : Nat) (h : Fetches c op) : nextWord c = op := by
  have hf := fetch_of_Fetches c op h
  unfold fetch at hf
  rw [if_pos h.1] at hf
  have := congrArg (fun r => match r with | .ok s => s.opcode | .error _ => 0) hf
  simpa [nextWord] using this

theorem foldlM_range_ok (f : Chip8 → Nat → Except Fault Chip8) (P : Chip8 → Prop)
    (G : Nat → Prop) (n : Nat)
    (hstep : ∀ q b b1, q < n → P b → f b q = .ok b1 → P b1 ∧ G q)
    (b : Chip8) (hb : P b) :
    ∀ m, m ≤ n → ∀ b', (List.range m).foldlM f b = .ok b' → P b' ∧ ∀ q, q < m → G q := by
  intro m
  induction m with
  | zero =>
    intro _ b' h
    simp only [List.range_zero, List.foldlM_nil, pure, Except.pure] at h
    cases h
    exact ⟨hb, fun q hq => absurd hq (Nat.not_lt_zero q)⟩
  | succ m ih =>
    intro hm b' h
    rw [List.range_succ, List.foldlM_append] at h
    cases h1 : (List.range m).foldlM f b with
    | error e =>
      rw [h1] at h
      cases h
    | ok b1 =>
      rw [h1] at h
      simp only [bind, Except.bind, List.foldlM_cons, List.foldlM_nil] at h
      obtain ⟨p1, g1⟩ := ih (by omega) b1 h1
      cases h2 : f b1 m with
      | error e =>
        rw [h2] at h
        cases h
      | ok b2 =>
        rw [h2] at h
        simp only [pure, Except.pure] at h
        obtain ⟨p2, g2⟩ := hstep m b1 b2 (by omega) p1 h2
        cases h
        refine ⟨p2, ?_⟩
        intro q hq
        by_cases hqm : q < m
        · exact g1 q hqm
        · have e : q = m := by omega
          rw [e]; exact g2

theorem drawPixel_ok (c b b1 : Chip8) (x y i j : Nat)
    (hP : b.I = c.I ∧ b.memory = c.memory)
    (h : drawPixel x y (c.memory (c.I + i)) i b j = .ok b1) :
    (b1.I = c.I ∧ b1.memory = c.memory) ∧
    ((c.memory (c.I + i) &&& (0x80 >>> j)) ≠ 0 → 64 * (y + i) + x + j < 64 * 32) := by
  unfold drawPixel at h
  by_cases h1 : (c.memory (c.I + i) &&& (0x80 >>> j)) ≠ 0
  · rw [if_pos h1] at h
    by_cases h2 : 64 * (y + i) + x + j < 64 * 32
    · rw [if_pos h2] at h
      by_cases hs : b.screen (64 * (y + i) + x + j) = 1
      · simp only [if_pos hs] at h
        cases h
        exact ⟨hP, fun _ => h2⟩
      · simp only [if_neg hs] at h
        cases h
        exact ⟨hP, fun _ => h2⟩
    · rw [if_neg h2] at h
      cases h
  · rw [if_neg h1] at h
    cases h
    exact ⟨hP, fun hh => absurd hh h1⟩

theorem drawRow_ok (c b b1 : Chip8) (x y i : Nat)
    (hP : b.I = c.I ∧ b.memory = c.memory) (h : drawRow x y b i = .ok b1) :
    (b1.I = c.I ∧ b1.memory = c.memory) ∧
    (c.I + i < 4096 ∧
      ∀ j, j < 8 → (c.memory (c.I + i) &&& (0x80 >>> j)) ≠ 0 →
        64 * (y + i) + x + j < 64 * 32) := by
  unfold drawRow at h
  by_cases hr : b.I + i < 4096
  · rw [if_pos hr, hP.1, hP.2] at h
    obtain ⟨p, g⟩ := foldlM_range_ok (drawPixel x y (c.memory (c.I + i)) i)
      (fun b => b.I = c.I ∧ b.memory = c.memory)
      (fun j => (c.memory (c.I + i) &&& (0x80 >>> j)) ≠ 0 → 64 * (y + i) + x + j < 64 * 32) 8
      (fun q b b1 _ hb hq => drawPixel_ok c b b1 x y i q hb hq) b hP 8 (Nat.le_refl 8) b1 h
    exact ⟨p, by rw [← hP.1]; exact hr, g⟩
  · rw [if_neg hr] at h
    cases h

theorem drawSprite_ok (c c' : Chip8) (h : drawSprite c = .ok c') :
    ∀ i, i < (c.opcode &&& 0x000F) % 256 →
      c.I + i < 4096 ∧
      ∀ j, j < 8 → (c.memory (c.I + i) &&& (0x80 >>> j)) ≠ 0 →
        64 * (c.V (opY c) + i) + c.V (opX c) + j < 64 * 32 := by
  unfold drawSprite at h
  exact (foldlM_range_ok (drawRow (c.V (opX c)) (c.V (opY c)))
    (fun b => b.I = c.I ∧ b.memory = c.memory)
    (fun i => c.I + i < 4096 ∧
      ∀ j, j < 8 → (c.memory (c.I + i) &&& (0x80 >>> j)) ≠ 0 →
        64 * (c.V (opY c) + i) + c.V (opX c) + j < 64 * 32)
    ((c.opcode &&& 0x000F) % 256)
    (fun q b b1 _ hb hq => drawRow_ok c b b1 _ _ q hb hq)
    { c with V := setAt c.V 0xF 0 } ⟨rfl, rfl⟩ _ (Nat.le_refl _) c' h).2

theorem decodeTable_ok_InBounds (c c' : Chip8)
    (h : decodeTable ((c.opcode &&& 0xF000) >>> 12) c = .ok c') : InBounds c c.opcode := by
  unfold InBounds
  have hlt : (c.opcode &&& 0xF000) >>> 12 < 16 := by rw [and_F000]; omega
  generalize (c.opcode &&& 0xF000) >>> 12 = f at h hlt
  interval_cases f <;> simp only <;> try trivial
  · intro hn
    simp only [decodeTable, decodeOpcode0, hn, opcode0DecodeTable, returnFromSubroutine] at h
    by_contra hb
    rw [if_neg hb] at h
    cases h
  · simp only [decodeTable, callSubroutine] at h
    by_contra hb
    rw [if_neg hb] at h
    cases h
  · exact drawSprite_ok c c' h
  · simp only [decodeTable, decodeOpcodeE] at h
    have hn : c.opcode &&& 1 < 2 := by rw [and_0001]; omega
    by_contra hb
    have hb' : ¬ c.V (opX c) < 16 := hb
    generalize c.opcode &&& 1 = n at h hn
    interval_cases n
    · simp only [opcodeEDecodeTable, skipIfKeyPressed, if_neg hb'] at h
      cases h
    · simp only [opcodeEDecodeTable, skipIfKeyNotPressed, if_neg hb'] at h
      cases h
  · simp only [decodeTable, decodeOpcodeF] at h
    refine ⟨?_, ?_⟩
    · intro h33
      simp only [h33] at h
      by_contra hb
      by_cases b0 : c.I < 4096 <;> by_cases b1 : c.I + 1 < 4096 <;>
        simp only [setBCD, writeMemory, bind, Except.bind, b0, b1, hb, if_true, if_false] at h <;>
        cases h
    · rintro (h55 | h65)
      · simp only [h55, storeRegisters] at h
        by_contra hb
        have hb' : ¬ c.I + (opX c + 1) ≤ 4096 := hb
        rw [if_neg hb'] at h
        cases h
      · simp only [h65, loadRegisters] at h
        by_contra hb
        have hb' : ¬ c.I + (opX c + 1) ≤ 4096 := hb
        rw [if_neg hb'] at h
        cases h

theorem decodeTable_ok_InBounds_word (c c' : Chip8) (op : Nat)
    (h : decodeTable ((op &&& 0xF000) >>> 12) { c with opcode := op } = .ok c') :
    InBounds c op :=
  decodeTable_ok_InBounds { c with opcode := op } c' h

/-- The step returns a state exactly when its fetch and the accesses of its handler
stay inside the arrays. -/
theorem EmulateCycle_ok_iff (c : Chip8) :
    (∃ c', EmulateCycle c = .ok c') ↔ c.pc + 1 < 4096 ∧ InBounds c (nextWord c) := by
  constructor
  · rintro ⟨c', h⟩
    unfold EmulateCycle fetch at h
    by_cases hpc : c.pc + 1 < 4096
    · simp only [if_pos hpc, bind, Except.bind] at h
      cases hd : decodeTable
          (((c.memory c.pc <<< 8 ||| c.memory (c.pc + 1)) % 65536 &&& 0xF000) >>> 12)
          { c with opcode := (c.memory c.pc <<< 8 ||| c.memory (c.pc + 1)) % 65536 } with
      | error e => rw [hd] at h; cases h
      | ok c2 =>
        have hd' : decodeTable ((nextWord c &&& 0xF000) >>> 12)
            { c with opcode := nextWord c } = .ok c2 := hd
        exact ⟨hpc, decodeTable_ok_InBounds_word c c2 (nextWord c) hd'⟩
    · simp only [if_neg hpc, bind, Except.bind] at h
      cases h
  · rintro ⟨hpc, hin⟩
    exact ⟨_, EmulateCycle_total c hpc hin⟩

theorem runSteps_total (k : Nat) :
    ∀ c : Chip8, SafeRun k c →
      ∃ ck, runSteps k c = .ok ck ∧ ck.delay_timer = c.delay_timer - k := by
  induction k with
  | zero =>
    intro c _
    exact ⟨c, rfl, rfl⟩
  | succ k ih =>
    intro c hs
    obtain ⟨hpc, hno, hin, hrest⟩ := hs
    have hstep := EmulateCycle_total c hpc hin
    obtain ⟨ck, hk, hd⟩ := ih (stepOr c) hrest
    have hd1 := step_delay c (stepOr c) hstep hno
    refine ⟨ck, ?_, ?_⟩
    · simp only [runSteps, hstep]
      exact hk
    · rw [hd, hd1]; omega

theorem toInt32_small (n : Nat) (h : n < 2 ^ 31) : toInt32 n = (n : Int) := by
  unfold toInt32
  omega

theorem drawPixel_Bits (x y row i j : Nat) (b b' : Chip8) (hb : Bits b)
    (h : drawPixel x y row i b j = .ok b') : Bits b' := by
  unfold drawPixel at h
  by_cases h1 : (row &&& (0x80 >>> j)) ≠ 0
  · rw [if_pos h1] at h
    by_cases h2 : 64 * (y + i) + x + j < 64 * 32
    · rw [if_pos h2] at h
      have hcell := hb (64 * (y + i) + x + j) h2
      intro p hp
      by_cases hs : b.screen (64 * (y + i) + x + j) = 1
      · simp only [if_pos hs] at h
        cases h
        by_cases hpe : p = 64 * (y + i) + x + j
        · subst hpe
          simp only [setAt, if_true, hs]
          left; decide
        · simp only [setAt, if_neg hpe]
          exact hb p hp
      · simp only [if_neg hs] at h
        cases h
        have h0 : b.screen (64 * (y + i) + x + j) = 0 := by
          rcases hcell with hc | hc
          · exact hc
          · exact absurd hc hs
        by_cases hpe : p = 64 * (y + i) + x + j
        · subst hpe
          simp only [setAt, if_true, h0]
          right; decide
        · simp only [setAt, if_neg hpe]
          exact hb p hp
    · rw [if_neg h2] at h
      cases h
  · rw [if_neg h1] at h
    cases h
    exact hb

theorem drawRow_Bits (x y i : Nat) (b b' : Chip8) (hb : Bits b)
    (h : drawRow x y b i = .ok b') : Bits b' := by
  unfold drawRow at h
  split_ifs at h
  exact foldlM_inv Bits _ (fun b a b' hb h => drawPixel_Bits x y _ i a b b' hb h) _ _ _ hb h

theorem drawSprite_Bits (c c' : Chip8) (hb : Bits c) (h : drawSprite c = .ok c') :
    Bits c' := by
  unfold drawSprite at h
  exact foldlM_inv Bits (drawRow (c.V (opX c)) (c.V (opY c)))
    (fun b a b' hb h => drawRow_Bits _ _ a b b' hb h) _
    { c with V := setAt c.V 0xF 0 } c' hb h

theorem decodeOpcode0_Bits (c c' : Chip8) (hb : Bits c) (h : decodeOpcode0 c = .ok c') :
    Bits c' := by
  unfold decodeOpcode0 at h
  have hlt : (c.opcode &&& 2) >>> 1 < 2 := by rw [and_0002]; omega
  generalize (c.opcode &&& 2) >>> 1 = n at h hlt
  interval_cases n
  · cases h
    intro p _
    left; rfl
  · simp only [opcode0DecodeTable, returnFromSubroutine] at h
    split_ifs at h
    cases h
    exact hb

theorem decodeOpcode8_Bits (c c' : Chip8) (hb : Bits c) (h : decodeOpcode8 c = .ok c') :
    Bits c' := by
  unfold decodeOpcode8 at h
  split_ifs at h
  · have hlt : c.opcode &&& 7 < 8 := by rw [and_0007]; omega
    generalize c.opcode &&& 7 = n at h hlt
    interval_cases n <;> cases h <;> exact hb
  · cases h; exact hb

theorem decodeOpcodeE_Bits (c c' : Chip8) (hb : Bits c) (h : decodeOpcodeE c = .ok c') :
    Bits c' := by
  unfold decodeOpcodeE at h
  have hlt : c.opcode &&& 1 < 2 := by rw [and_0001]; omega
  generalize c.opcode &&& 1 = n at h hlt
  interval_cases n
  · simp only [opcodeEDecodeTable, skipIfKeyPressed] at h
    split_ifs at h <;> cases h <;> exact hb
  · simp only [opcodeEDecodeTable, skipIfKeyNotPressed] at h
    split_ifs at h <;> cases h <;> exact hb

theorem decodeOpcodeF_Bits (c c' : Chip8) (hb : Bits c) (h : decodeOpcodeF c = .ok c') :
    Bits c' := by
  unfold decodeOpcodeF at h
  split at h
  · cases h; exact hb
  · unfold getKey at h
    split at h <;> cases h <;> exact hb
  · cases h; exact hb
  · cases h; exact hb
  · cases h; exact hb
  · cases h; exact hb
  · by_cases b0 : c.I < 4096 <;> by_cases b1 : c.I + 1 < 4096 <;>
      by_cases b2 : c.I + 2 < 4096 <;>
      simp only [setBCD, writeMemory, bind, Except.bind, b0, b1, b2, if_true, if_false] at h <;>
      cases h
    exact hb
  · unfold storeRegisters at h
    split_ifs at h
    cases h
    exact hb
  · unfold loadRegisters at h
    split_ifs at h
    cases h
    exact hb
  · cases h; exact hb

theorem decodeTable_Bits (c c' : Chip8) (fam : Nat) (hb : Bits c)
    (h : decodeTable fam c = .ok c') : Bits c' := by
  by_cases hfam : fam < 16
  · interval_cases fam
    · exact decodeOpcode0_Bits c c' hb h
    · cases h; exact hb
    · simp only [decodeTable, callSubroutine] at h
      split_ifs at h
      cases h
      exact hb
    · simp only [decodeTable, skipInstructionIfEqualsN] at h
      split_ifs at h <;> cases h <;> exact hb
    · simp only [decodeTable, skipInstructionIfNotEqualsN] at h
      split_ifs at h <;> cases h <;> exact hb
    · simp only [decodeTable, skipInstructionIfEquals] at h
      split_ifs at h <;> cases h <;> exact hb
    · cases h; exact hb
    · cases h; exact hb
    · exact decodeOpcode8_Bits c c' hb h
    · simp only [decodeTable, skipInstructionIfNotEquals] at h
      split_ifs at h <;> cases h <;> exact hb
    · cases h; exact hb
    · cases h; exact hb
    · cases h; exact hb
    · exact drawSprite_Bits c c' hb h
    · exact decodeOpcodeE_Bits c c' hb h
    · exact decodeOpcodeF_Bits c c' hb h
  · have e : decodeTable fam c = .error .tableOutOfBounds := by
      unfold decodeTable
      split <;> first | omega | rfl
    rw [e] at h; cases h

theorem EmulateCycle_Bits (c c' : Chip8) (hb : Bits c) (h : EmulateCycle c = .ok c') :
    Bits c' := by
  unfold EmulateCycle fetch at h
  by_cases hpc : c.pc + 1 < 4096
  · simp only [if_pos hpc, bind, Except.bind] at h
    cases hd : decodeTable
        (((c.memory c.pc <<< 8 ||| c.memory (c.pc + 1)) % 65536 &&& 0xF000) >>> 12)
        { c with opcode := (c.memory c.pc <<< 8 ||| c.memory (c.pc + 1)) % 65536 } with
    | error e => rw [hd] at h; cases h
    | ok c2 =>
      rw [hd] at h
      simp only [pure, Except.pure] at h
      cases h
      have h2 : Bits c2 := decodeTable_Bits _ c2 _ (by exact hb) hd
      intro p hp
      rw [updateTimers_screen]
      exact h2 p hp
  · simp only [if_neg hpc, bind, Except.bind] at h
    cases h

/-- C1. Dxyn with all framebuffer cells in 0..1, Vx <= 56, Vy + n <= 32 and
I + n <= 4096 returns without any access outside the arrays; every pixel
(Vx + j, Vy + i) of the sprite area is its old value XOR bit 7 - j of
memory[I + i], every other pixel keeps its value, VF is 1 exactly when a set
sprite bit met a pixel that was 1 and 0 otherwise, and I, memory and the
registers other than VF keep their values. -/
theorem sprite_draw (c : Chip8) (x y n : Nat) (hx : x ≤ 15) (hy : y ≤ 15) (hn : n ≤ 15)
    (hf : Fetches c (0xD000 + 256 * x + 16 * y + n))
    (hcells : ∀ p, p < 2048 → c.screen p = 0 ∨ c.screen p = 1)
    (hVx : c.V x ≤ 56) (hVy : c.V y + n ≤ 32) (hI : c.I + n ≤ 4096) :
    ∃ c', EmulateCycle c = .ok c' ∧
      (∀ i j, i < n → j < 8 →
        c'.screen (64 * (c.V y + i) + (c.V x + j)) =
          c.screen (64 * (c.V y + i) + (c.V x + j)) ^^^ (c.memory (c.I + i) / 2 ^ (7 - j) % 2)) ∧
      (∀ p, (∀ i j, i < n → j < 8 → p ≠ 64 * (c.V y + i) + (c.V x + j)) →
        c'.screen p = c.screen p) ∧
      (c'.V 0xF = 1 ↔
        ∃ i j, i < n ∧ j < 8 ∧ c.memory (c.I + i) / 2 ^ (7 - j) % 2 = 1 ∧
          c.screen (64 * (c.V y + i) + (c.V x + j)) = 1) ∧
      (c'.V 0xF = 1 ∨ c'.V 0xF = 0) ∧
      c'.I = c.I ∧ c'.memory = c.memory ∧ (∀ k, k ≠ 0xF → c'.V k = c.V k) ∧
      c'.pc = c.pc + 2 := by
  have hpc := hf.1
  rw [EmulateCycle_of_Fetches c _ hf]
  have e1 : (0xD000 + 256 * x + 16 * y + n) / 4096 = 13 := by omega
  rw [e1]
  simp only [decodeTable, drawSprite, opX, opY, and_0F00, and_00F0, and_000F]
  have e2 : (0xD000 + 256 * x + 16 * y + n) / 256 % 16 = x := by omega
  have e3 : (0xD000 + 256 * x + 16 * y + n) / 16 % 16 = y := by omega
  have e4 : (0xD000 + 256 * x + 16 * y + n) % 16 % 256 = n := by omega
  rw [e2, e3, e4]
  have hpa : ∀ i j, 64 * (c.V y + i) + (c.V x + j) = pix (c.V x) (c.V y) i j := by
    intro i j; unfold pix; omega
  have h0 : SpriteInv c (c.V x) (c.V y) 0 0
      { c with opcode := 0xD000 + 256 * x + 16 * y + n, V := setAt c.V 0xF 0 } := by
    constructor
    · intro i' j' hD; unfold Drawn at hD; omega
    · intro p _; rfl
    · right; simp [setAt]
    · simp only [setAt, if_true]
      constructor
      · intro h; omega
      · rintro ⟨i', j', hD, -⟩; unfold Drawn at hD; omega
    · rfl
    · rfl
    · intro k hk; simp [setAt, hk]
    · rfl
  obtain ⟨b', h1, h2⟩ :=
    foldlM_range_inv (drawRow (c.V x) (c.V y)) (fun i b => SpriteInv c (c.V x) (c.V y) i 0 b) n
      (fun i b hi hb => drawRow_step c b (c.V x) (c.V y) n i
        (fun p hp => by rcases hcells p hp with h | h <;> omega) hVx hVy hI hi hb) _ h0
  rw [h1]
  refine ⟨_, rfl, ?_, ?_, ?_, ?_, ?_, ?_, ?_, ?_⟩
  · intro i j hi hj
    simp only [updateTimers_screen, hpa]
    exact h2.drawn i j ((Drawn_done _ _ _).2 ⟨hi, hj⟩)
  · intro p hp
    simp only [updateTimers_screen]
    apply h2.rest
    intro i' j' hD
    rw [← hpa]
    exact hp i' j' ((Drawn_done _ _ _).1 hD).1 ((Drawn_done _ _ _).1 hD).2
  · simp only [updateTimers_V, hpa]
    rw [h2.flag]
    constructor
    · rintro ⟨i', j', hD, e1, e2⟩
      exact ⟨i', j', ((Drawn_done _ _ _).1 hD).1, ((Drawn_done _ _ _).1 hD).2, e1, e2⟩
    · rintro ⟨i', j', hi, hj, e1, e2⟩
      exact ⟨i', j', (Drawn_done _ _ _).2 ⟨hi, hj⟩, e1, e2⟩
  · simp only [updateTimers_V]; exact h2.flag01
  · simp only [updateTimers_I]; exact h2.index
  · simp only [updateTimers_memory]; exact h2.mem
  · intro k hk; simp only [updateTimers_V]; exact h2.regs k hk
  · simp only [updateTimers_pc, h2.pc_eq]; omega

/-- Witness for C1: D015 after construction (V0 = V1 = 0, I = 0, blank screen)
draws the first font glyph, whose first row is 0xF0, and leaves VF = 0. -/
theorem sprite_draw_witness :
    ∃ c', EmulateCycle (withProgram 0xD015) = .ok c' ∧
      c'.screen 0 = 1 ∧ c'.screen 3 = 1 ∧ c'.screen 4 = 0 ∧ c'.screen 65 = 0 ∧
      c'.screen 2047 = 0 ∧ c'.V 0xF = 0 ∧ c'.I = 0 := by
  obtain ⟨c', h, hdrawn, hrest, hflag, h01, hI, -⟩ :=
    sprite_draw (withProgram 0xD015) 0 1 5 (by decide) (by decide) (by decide)
      (Fetches_withProgram 0xD015 (by decide))
      (by intro p _; left; rfl) (by decide) (by decide) (by decide)
  refine ⟨c', h, ?_, ?_, ?_, ?_, ?_, ?_, hI⟩
  · exact hdrawn 0 0 (by decide) (by decide)
  · exact hdrawn 0 3 (by decide) (by decide)
  · exact hdrawn 0 4 (by decide) (by decide)
  · exact hdrawn 1 1 (by decide) (by decide)
  · apply hrest
    intro i j hi hj
    have e0 : (withProgram 0xD015).V 0 = 0 := rfl
    have e1 : (withProgram 0xD015).V 1 = 0 := rfl
    rw [e0, e1]
    omega
  · rcases h01 with h1 | h0
    · obtain ⟨i, j, -, -, -, hs⟩ := hflag.1 h1
      have hz : (0 : Nat) = 1 := hs
      omega
    · exact h0

/-- C2. 8xy4 with x and y in 0..14: VF is the carry of Vx + Vy, Vx is the sum
modulo 256 (also for x = y), the other registers keep their values and PC
advances by 2. -/
theorem add_carry (c : Chip8) (x y : Nat) (hx : x ≤ 14) (hy : y ≤ 14) (hwf : WF c)
    (hf : Fetches c (0x8004 + 256 * x + 16 * y)) :
    ∃ c', EmulateCycle c = .ok c' ∧
      c'.V 0xF = (if c.V x + c.V y > 255 then 1 else 0) ∧
      c'.V x = (c.V x + c.V y) % 256 ∧
      (∀ k, k ≠ x → k ≠ 0xF → c'.V k = c.V k) ∧
      c'.pc = c.pc + 2 := by
  have hpc := hf.1
  have hVx := hwf.V_lt x
  have hVy := hwf.V_lt y
  rw [EmulateCycle_of_Fetches c _ hf]
  have e1 : (0x8004 + 256 * x + 16 * y) / 4096 = 8 := by omega
  rw [e1]
  simp only [decodeTable, decodeOpcode8, and_0008, and_0007]
  have e2 : 8 * ((0x8004 + 256 * x + 16 * y) / 8 % 2) = 0 := by omega
  have e3 : (0x8004 + 256 * x + 16 * y) % 8 = 4 := by omega
  rw [if_pos e2, e3]
  simp only [opcode8DecodeTable, add, opX, opY, and_0F00, and_00F0]
  have e4 : (0x8004 + 256 * x + 16 * y) / 256 % 16 = x := by omega
  have e5 : (0x8004 + 256 * x + 16 * y) / 16 % 16 = y := by omega
  rw [e4, e5]
  refine ⟨_, rfl, ?_, ?_, ?_, ?_⟩
  · simp [setAt, Nat.shiftRight_eq_div_pow]
    split_ifs <;> omega
  · simp [setAt, Nat.shiftRight_eq_div_pow]
    split_ifs <;> omega
  · intro k hk1 hk2
    simp [setAt, hk1, hk2]
  · simp; omega

/-- Witness for C2: 8014 with V0 = 250 and V1 = 10 leaves VF = 1 and V0 = 4. -/
theorem add_carry_witness :
    ∃ c', EmulateCycle (withV (withProgram 0x8014) [250, 10]) = .ok c' ∧
      c'.V 0xF = 1 ∧ c'.V 0 = 4 ∧ c'.V 1 = 10 ∧ c'.pc = 0x202 := by
  obtain ⟨c', h, hF, h0, hk, hpc⟩ :=
    add_carry (withV (withProgram 0x8014) [250, 10]) 0 1 (by decide) (by decide)
      (WF_withV _ _ (WF_withProgram _ (by decide)) (by decide))
      (Fetches_withV _ _ _ (Fetches_withProgram 0x8014 (by decide)))
  exact ⟨c', h, hF, h0, hk 1 (by decide) (by decide), hpc⟩

/-- C3. 8xy5 and 8xy7 with x and y in 0..14: VF is the not-borrow flag, Vx is the
difference modulo 256, and the registers other than Vx and VF keep their
values. -/
theorem subtract_not_borrow (c d : Chip8) (x y : Nat) (hx : x ≤ 14) (hy : y ≤ 14)
    (hfc : Fetches c (0x8005 + 256 * x + 16 * y))
    (hfd : Fetches d (0x8007 + 256 * x + 16 * y)) :
    (∃ c', EmulateCycle c = .ok c' ∧
      c'.V 0xF = (if c.V x ≥ c.V y then 1 else 0) ∧
      (c'.V x : Int) = ((c.V x : Int) - (c.V y : Int)) % 256 ∧
      (∀ k, k ≠ x → k ≠ 0xF → c'.V k = c.V k)) ∧
    (∃ d', EmulateCycle d = .ok d' ∧
      d'.V 0xF = (if d.V y ≥ d.V x then 1 else 0) ∧
      (d'.V x : Int) = ((d.V y : Int) - (d.V x : Int)) % 256 ∧
      (∀ k, k ≠ x → k ≠ 0xF → d'.V k = d.V k)) := by
  constructor
  · rw [EmulateCycle_of_Fetches c _ hfc]
    have e1 : (0x8005 + 256 * x + 16 * y) / 4096 = 8 := by omega
    rw [e1]
    simp only [decodeTable, decodeOpcode8, and_0008, and_0007]
    have e2 : 8 * ((0x8005 + 256 * x + 16 * y) / 8 % 2) = 0 := by omega
    have e3 : (0x8005 + 256 * x + 16 * y) % 8 = 5 := by omega
    rw [if_pos e2, e3]
    simp only [opcode8DecodeTable, subtract, opX, opY, and_0F00, and_00F0]
    have e4 : (0x8005 + 256 * x + 16 * y) / 256 % 16 = x := by omega
    have e5 : (0x8005 + 256 * x + 16 * y) / 16 % 16 = y := by omega
    rw [e4, e5]
    have hx15 : x ≠ 15 := by omega
    have hx15r : 15 ≠ x := by omega
    have hy15 : y ≠ 15 := by omega
    have hy15r : 15 ≠ y := by omega
    refine ⟨_, rfl, ?_, ?_, ?_⟩
    · simp [setAt, boolToNat, hx15, hy15, hx15r, hy15r]
    · simp [setAt, toU8, hx15, hy15, hx15r, hy15r]
      omega
    · intro k hk1 hk2
      simp [setAt, hk1, hk2]
  · rw [EmulateCycle_of_Fetches d _ hfd]
    have e1 : (0x8007 + 256 * x + 16 * y) / 4096 = 8 := by omega
    rw [e1]
    simp only [decodeTable, decodeOpcode8, and_0008, and_0007]
    have e2 : 8 * ((0x8007 + 256 * x + 16 * y) / 8 % 2) = 0 := by omega
    have e3 : (0x8007 + 256 * x + 16 * y) % 8 = 7 := by omega
    rw [if_pos e2, e3]
    simp only [opcode8DecodeTable, reverseSubtract, opX, opY, and_0F00, and_00F0]
    have e4 : (0x8007 + 256 * x + 16 * y) / 256 % 16 = x := by omega
    have e5 : (0x8007 + 256 * x + 16 * y) / 16 % 16 = y := by omega
    rw [e4, e5]
    have hx15 : x ≠ 15 := by omega
    have hx15r : 15 ≠ x := by omega
    have hy15 : y ≠ 15 := by omega
    have hy15r : 15 ≠ y := by omega
    refine ⟨_, rfl, ?_, ?_, ?_⟩
    · simp [setAt, boolToNat, hx15, hy15, hx15r, hy15r]
    · simp [setAt, toU8, hx15, hy15, hx15r, hy15r]
      omega
    · intro k hk1 hk2
      simp [setAt, hk1, hk2]

/-- Witness for C3: 8015 with V0 = 5 and V1 = 10 leaves VF = 0 and V0 = 251;
8017 on the same registers leaves VF = 1 and V0 = 5. -/
theorem subtract_not_borrow_witness :
    (∃ c', EmulateCycle (withV (withProgram 0x8015) [5, 10]) = .ok c' ∧
      c'.V 0xF = 0 ∧ c'.V 0 = 251 ∧ c'.V 1 = 10) ∧
    (∃ d', EmulateCycle (withV (withProgram 0x8017) [5, 10]) = .ok d' ∧
      d'.V 0xF = 1 ∧ d'.V 0 = 5 ∧ d'.V 1 = 10) := by
  obtain ⟨⟨c', h, hF, h0, hk⟩, ⟨d', g, gF, g0, gk⟩⟩ :=
    subtract_not_borrow (withV (withProgram 0x8015) [5, 10]) (withV (withProgram 0x8017) [5, 10])
      0 1 (by decide) (by decide)
      (Fetches_withV _ _ _ (Fetches_withProgram 0x8015 (by decide)))
      (Fetches_withV _ _ _ (Fetches_withProgram 0x8017 (by decide)))
  refine ⟨⟨c', h, hF, ?_, hk 1 (by decide) (by decide)⟩, ⟨d', g, gF, ?_, gk 1 (by decide) (by decide)⟩⟩
  · have : ((withV (withProgram 0x8015) [5, 10]).V 0 : Int) = 5 := rfl
    have : ((withV (withProgram 0x8015) [5, 10]).V 1 : Int) = 10 := rfl
    omega
  · have : ((withV (withProgram 0x8017) [5, 10]).V 0 : Int) = 5 := rfl
    have : ((withV (withProgram 0x8017) [5, 10]).V 1 : Int) = 10 := rfl
    omega

/-- C4. 8xy6 and 8xyE with x in 0..14: VF receives the bit shifted out and Vx the
shifted value, so the old value can be rebuilt from the two; Vy is not read (the
results are the same for every value of Vy when y differs from x), and the
registers other than Vx and VF keep their values. -/
theorem shifts_lose_nothing (c d : Chip8) (x y : Nat) (hx : x ≤ 14) (hy : y ≤ 15)
    (hc : WF c) (hfc : Fetches c (0x8006 + 256 * x + 16 * y))
    (hd : WF d) (hfd : Fetches d (0x800E + 256 * x + 16 * y)) :
    (∃ c', EmulateCycle c = .ok c' ∧
      c'.V 0xF = c.V x % 2 ∧ c'.V x = c.V x / 2 ∧ c.V x = 2 * c'.V x + c'.V 0xF ∧
      (∀ k, k ≠ x → k ≠ 0xF → c'.V k = c.V k) ∧
      (∀ w, w < 256 → y ≠ x →
        ∃ c'', EmulateCycle { c with V := setAt c.V y w } = .ok c'' ∧
          c''.V 0xF = c'.V 0xF ∧ c''.V x = c'.V x)) ∧
    (∃ d', EmulateCycle d = .ok d' ∧
      d'.V 0xF = d.V x / 128 ∧ d'.V x = (2 * d.V x) % 256 ∧
      2 * d.V x = 256 * d'.V 0xF + d'.V x ∧
      (∀ k, k ≠ x → k ≠ 0xF → d'.V k = d.V k) ∧
      (∀ w, w < 256 → y ≠ x →
        ∃ d'', EmulateCycle { d with V := setAt d.V y w } = .ok d'' ∧
          d''.V 0xF = d'.V 0xF ∧ d''.V x = d'.V x)) := by
  constructor
  · obtain ⟨c', h, hF, hX, hk⟩ := shiftRight_step c x y hx hy hc hfc
    refine ⟨c', h, hF, hX, by omega, hk, ?_⟩
    intro w hw hyx
    obtain ⟨c'', h', hF', hX', -⟩ :=
      shiftRight_step { c with V := setAt c.V y w } x y hx hy (WF_setV c y w hc hw) hfc
    have e : setAt c.V y w x = c.V x := by simp [setAt, Ne.symm hyx]
    simp only [e] at hF' hX'
    exact ⟨c'', h', by omega, by omega⟩
  · have hVx := hd.V_lt x
    obtain ⟨d', h, hF, hX, hk⟩ := shiftLeft_step d x y hx hy hd hfd
    refine ⟨d', h, hF, hX, by omega, hk, ?_⟩
    intro w hw hyx
    obtain ⟨d'', h', hF', hX', -⟩ :=
      shiftLeft_step { d with V := setAt d.V y w } x y hx hy (WF_setV d y w hd hw) hfd
    have e : setAt d.V y w x = d.V x := by simp [setAt, Ne.symm hyx]
    simp only [e] at hF' hX'
    exact ⟨d'', h', by omega, by omega⟩

/-- Witness for C4: 8016 with V0 = 3 leaves VF = 1 and V0 = 1; 801E with V0 = 0x81
leaves VF = 1 and V0 = 2. -/
theorem shifts_lose_nothing_witness :
    (∃ c', EmulateCycle (withV (withProgram 0x8016) [3]) = .ok c' ∧
      c'.V 0xF = 1 ∧ c'.V 0 = 1) ∧
    (∃ d', EmulateCycle (withV (withProgram 0x801E) [0x81]) = .ok d' ∧
      d'.V 0xF = 1 ∧ d'.V 0 = 2) := by
  obtain ⟨⟨c', h, hF, h0, -⟩, ⟨d', g, gF, g0, -⟩⟩ :=
    shifts_lose_nothing (withV (withProgram 0x8016) [3]) (withV (withProgram 0x801E) [0x81])
      0 1 (by decide) (by decide)
      (WF_withV _ _ (WF_withProgram _ (by decide)) (by decide))
      (Fetches_withV _ _ _ (Fetches_withProgram 0x8016 (by decide)))
      (WF_withV _ _ (WF_withProgram _ (by decide)) (by decide))
      (Fetches_withV _ _ _ (Fetches_withProgram 0x801E (by decide)))
  exact ⟨⟨c', h, hF, h0⟩, ⟨d', g, gF, g0⟩⟩

/-- C5. A call 2nnn at address a with SP = s < 16 leaves PC = nnn, SP = s + 1, the
value a in stack[s] and the other stack entries as they were; when the word at
nnn is 00EE the next step leaves PC = a + 2 and SP = s. Registers, I, memory and
framebuffer are the same after both steps. -/
theorem call_return_round_trip (c : Chip8) (nnn : Nat) (hnnn : nnn ≤ 0xFFF)
    (hsp : c.sp < 16) (hf : Fetches c (0x2000 + nnn)) :
    ∃ c1, EmulateCycle c = .ok c1 ∧
      c1.pc = nnn ∧ c1.sp = c.sp + 1 ∧ c1.stack c.sp = c.pc ∧
      (∀ k, k ≠ c.sp → c1.stack k = c.stack k) ∧
      c1.V = c.V ∧ c1.I = c.I ∧ c1.memory = c.memory ∧ c1.screen = c.screen ∧
      (Fetches c1 0x00EE →
        ∃ c2, EmulateCycle c1 = .ok c2 ∧
          c2.pc = c.pc + 2 ∧ c2.sp = c.sp ∧
          c2.V = c.V ∧ c2.I = c.I ∧ c2.memory = c.memory ∧ c2.screen = c.screen) := by
  have hpc := hf.1
  rw [EmulateCycle_of_Fetches c _ hf]
  have e1 : (0x2000 + nnn) / 4096 = 2 := by omega
  rw [e1]
  simp only [decodeTable, callSubroutine, and_0FFF]
  rw [if_pos hsp]
  have e2 : (0x2000 + nnn) % 4096 = nnn := by omega
  rw [e2]
  refine ⟨_, rfl, ?_, ?_, ?_, ?_, ?_, ?_, ?_, ?_, ?_⟩
  · simp [toU16]; omega
  · simp; omega
  · simp [setAt]
  · intro k hk; simp [setAt, hk]
  · simp
  · simp
  · simp
  · simp
  · intro hf2
    rw [EmulateCycle_of_Fetches _ _ hf2]
    simp only [decodeTable, decodeOpcode0, and_0002, opcode0DecodeTable, returnFromSubroutine]
    have e3 : toU16 (((updateTimers
        { screen := c.screen, keys := c.keys, pc := (toU16 (((nnn : Nat) : Int) - 2) + 2) % 65536,
          opcode := 8192 + nnn, I := c.I, sp := (c.sp + 1) % 65536, V := c.V,
          stack := setAt c.stack c.sp c.pc, memory := c.memory, delay_timer := c.delay_timer,
          sound_timer := c.sound_timer, soundEnabled := c.soundEnabled, cout := c.cout,
          rand := c.rand }).sp : Int) - 1) = c.sp := by
      simp [toU16]; omega
    simp only [updateTimers_sp, updateTimers_stack] at e3 ⊢
    simp only [e3, if_pos hsp]
    refine ⟨_, rfl, ?_, ?_, ?_, ?_, ?_, ?_⟩
    · simp [setAt]; omega
    · simp
    · simp
    · simp
    · simp
    · simp

/-- Witness for C5: a call 2300 at 0x200 with the word 00EE stored at 0x300. -/
theorem call_return_round_trip_witness :
    ∃ c1 c2, EmulateCycle (poke (withProgram 0x2300) 0x300 0x00EE) = .ok c1 ∧
      EmulateCycle c1 = .ok c2 ∧
      c1.pc = 0x300 ∧ c1.sp = 1 ∧ c1.stack 0 = 0x200 ∧ c2.pc = 0x202 ∧ c2.sp = 0 := by
  have hf : Fetches (poke (withProgram 0x2300) 0x300 0x00EE) (0x2000 + 0x300) := by
    refine ⟨?_, ?_, ?_, ?_⟩ <;> simp [poke, withProgram, setAt, init]
  obtain ⟨c1, h1, hpc, hsp, hst, -, -, -, hmem, -, hret⟩ :=
    call_return_round_trip (poke (withProgram 0x2300) 0x300 0x00EE) 0x300 (by decide)
      (by simp [poke, withProgram, init]) hf
  have hf2 : Fetches c1 0x00EE := by
    refine ⟨?_, ?_, ?_, ?_⟩
    · rw [hpc]; decide
    · rw [hpc, hmem]; simp [poke, withProgram, setAt, init]
    · rw [hpc, hmem]; simp [poke, withProgram, setAt, init]
    · decide
  obtain ⟨c2, h2, hpc2, hsp2, -⟩ := hret hf2
  exact ⟨c1, c2, h1, h2, hpc, hsp, hst, hpc2, hsp2⟩

/-- C6. 1nnn leaves PC = nnn and Bnnn leaves PC = nnn + V0 for every nnn in
0..0xFFF, the targets 0 and 1 included; registers, I, SP, stack, memory and
framebuffer keep their values. -/
theorem jumps_land_on_target (c d : Chip8) (nnn : Nat) (hnnn : nnn ≤ 0xFFF)
    (hfc : Fetches c (0x1000 + nnn))
    (hd : WF d) (hfd : Fetches d (0xB000 + nnn)) :
    (∃ c', EmulateCycle c = .ok c' ∧ c'.pc = nnn ∧
      c'.V = c.V ∧ c'.I = c.I ∧ c'.sp = c.sp ∧ c'.stack = c.stack ∧
      c'.memory = c.memory ∧ c'.screen = c.screen) ∧
    (∃ d', EmulateCycle d = .ok d' ∧ d'.pc = nnn + d.V 0 ∧
      d'.V = d.V ∧ d'.I = d.I ∧ d'.sp = d.sp ∧ d'.stack = d.stack ∧
      d'.memory = d.memory ∧ d'.screen = d.screen) := by
  constructor
  · rw [EmulateCycle_of_Fetches c _ hfc]
    have e1 : (0x1000 + nnn) / 4096 = 1 := by omega
    rw [e1]
    simp only [decodeTable, jumpToAddress, and_0FFF]
    have e2 : (0x1000 + nnn) % 4096 = nnn := by omega
    rw [e2]
    refine ⟨_, rfl, ?_, ?_, ?_, ?_, ?_, ?_, ?_⟩ <;> simp
    simp [toU16]; omega
  · have hV0 := hd.V_lt 0
    rw [EmulateCycle_of_Fetches d _ hfd]
    have e1 : (0xB000 + nnn) / 4096 = 11 := by omega
    rw [e1]
    simp only [decodeTable, jumpToAddressPlus, and_0FFF]
    have e2 : (0xB000 + nnn) % 4096 = nnn := by omega
    rw [e2]
    refine ⟨_, rfl, ?_, ?_, ?_, ?_, ?_, ?_, ?_⟩ <;> simp
    simp [toU16]; omega

/-- Witness for C6: 1000 jumps to address 0, and B000 with V0 = 0 jumps to
address 0. -/
theorem jumps_land_on_target_witness :
    (∃ c', EmulateCycle (withProgram 0x1000) = .ok c' ∧ c'.pc = 0) ∧
    (∃ d', EmulateCycle (withProgram 0xB000) = .ok d' ∧ d'.pc = 0) := by
  obtain ⟨⟨c', h, hpc, -⟩, ⟨d', g, gpc, -⟩⟩ :=
    jumps_land_on_target (withProgram 0x1000) (withProgram 0xB000) 0 (by decide)
      (Fetches_withProgram 0x1000 (by decide))
      (WF_withProgram _ (by decide))
      (Fetches_withProgram 0xB000 (by decide))
  exact ⟨⟨c', h, hpc⟩, ⟨d', g, gpc⟩⟩

/-- C7. The conditional skips 3xnn, 4xnn, 5xy0 and 9xy0 leave PC = old PC + 4
when their condition holds and old PC + 2 otherwise, and change no register, I,
SP, stack, memory or framebuffer cell; on equal register contents exactly one of
3xnn / 4xnn skips and exactly one of 5xy0 / 9xy0 skips. -/
theorem conditional_skips (c3 c4 c5 c9 : Chip8) (x y nn : Nat)
    (hx : x ≤ 15) (hy : y ≤ 15) (hnn : nn ≤ 255)
    (h3 : Fetches c3 (0x3000 + 256 * x + nn)) (h4 : Fetches c4 (0x4000 + 256 * x + nn))
    (h5 : Fetches c5 (0x5000 + 256 * x + 16 * y))
    (h9 : Fetches c9 (0x9000 + 256 * x + 16 * y)) :
    ∃ d3 d4 d5 d9,
      EmulateCycle c3 = .ok d3 ∧ EmulateCycle c4 = .ok d4 ∧
      EmulateCycle c5 = .ok d5 ∧ EmulateCycle c9 = .ok d9 ∧
      d3.pc = (if c3.V x = nn then c3.pc + 4 else c3.pc + 2) ∧
      d4.pc = (if c4.V x ≠ nn then c4.pc + 4 else c4.pc + 2) ∧
      d5.pc = (if c5.V x = c5.V y then c5.pc + 4 else c5.pc + 2) ∧
      d9.pc = (if c9.V x ≠ c9.V y then c9.pc + 4 else c9.pc + 2) ∧
      (c4.V = c3.V → (d3.pc = c3.pc + 4 ↔ ¬ d4.pc = c4.pc + 4)) ∧
      (c9.V = c5.V → (d5.pc = c5.pc + 4 ↔ ¬ d9.pc = c9.pc + 4)) ∧
      (d3.V = c3.V ∧ d3.I = c3.I ∧ d3.sp = c3.sp ∧ d3.stack = c3.stack ∧
        d3.memory = c3.memory ∧ d3.screen = c3.screen) ∧
      (d4.V = c4.V ∧ d4.I = c4.I ∧ d4.sp = c4.sp ∧ d4.stack = c4.stack ∧
        d4.memory = c4.memory ∧ d4.screen = c4.screen) ∧
      (d5.V = c5.V ∧ d5.I = c5.I ∧ d5.sp = c5.sp ∧ d5.stack = c5.stack ∧
        d5.memory = c5.memory ∧ d5.screen = c5.screen) ∧
      (d9.V = c9.V ∧ d9.I = c9.I ∧ d9.sp = c9.sp ∧ d9.stack = c9.stack ∧
        d9.memory = c9.memory ∧ d9.screen = c9.screen) := by
  obtain ⟨d3, e3, p3, f3⟩ := skip_3xnn c3 x nn hx hnn h3
  obtain ⟨d4, e4, p4, f4⟩ := skip_4xnn c4 x nn hx hnn h4
  obtain ⟨d5, e5, p5, f5⟩ := skip_5xy0 c5 x y hx hy h5
  obtain ⟨d9, e9, p9, f9⟩ := skip_9xy0 c9 x y hx hy h9
  refine ⟨d3, d4, d5, d9, e3, e4, e5, e9, p3, p4, p5, p9, ?_, ?_, f3, f4, f5, f9⟩
  · intro hV
    rw [p3, p4, hV]
    by_cases h : c3.V x = nn <;> simp [h]
  · intro hV
    rw [p5, p9, hV]
    by_cases h : c5.V x = c5.V y <;> simp [h]

/-- Witness for C7: with V0 = 7 and V1 = 7, the words 3007 and 5010 skip and the
words 4007 and 9010 do not. -/
theorem conditional_skips_witness :
    ∃ d3 d4 d5 d9,
      EmulateCycle (withV (withProgram 0x3007) [7, 7]) = .ok d3 ∧
      EmulateCycle (withV (withProgram 0x4007) [7, 7]) = .ok d4 ∧
      EmulateCycle (withV (withProgram 0x5010) [7, 7]) = .ok d5 ∧
      EmulateCycle (withV (withProgram 0x9010) [7, 7]) = .ok d9 ∧
      d3.pc = 0x204 ∧ d4.pc = 0x202 ∧ d5.pc = 0x204 ∧ d9.pc = 0x202 := by
  obtain ⟨d3, d4, d5, d9, e3, e4, e5, e9, p3, p4, p5, p9, -⟩ :=
    conditional_skips (withV (withProgram 0x3007) [7, 7]) (withV (withProgram 0x4007) [7, 7])
      (withV (withProgram 0x5010) [7, 7]) (withV (withProgram 0x9010) [7, 7]) 0 1 7
      (by decide) (by decide) (by decide)
      (Fetches_withV _ _ _ (Fetches_withProgram 0x3007 (by decide)))
      (Fetches_withV _ _ _ (Fetches_withProgram 0x4007 (by decide)))
      (Fetches_withV _ _ _ (Fetches_withProgram 0x5010 (by decide)))
      (Fetches_withV _ _ _ (Fetches_withProgram 0x9010 (by decide)))
  exact ⟨d3, d4, d5, d9, e3, e4, e5, e9, p3, p4, p5, p9⟩

/-- C8. Fx33 with I + 2 <= 4095 stores the hundreds, tens and ones digit of Vx at
memory[I], memory[I+1] and memory[I+2]; each is a decimal digit and together
they rebuild Vx; the other memory bytes, the registers and I keep their values. -/
theorem bcd_digits (c : Chip8) (x : Nat) (hx : x ≤ 15) (hwf : WF c)
    (hI : c.I + 2 ≤ 4095) (hf : Fetches c (0xF033 + 256 * x)) :
    ∃ c', EmulateCycle c = .ok c' ∧
      c'.memory c.I = c.V x / 100 ∧
      c'.memory (c.I + 1) = (c.V x / 10) % 10 ∧
      c'.memory (c.I + 2) = c.V x % 10 ∧
      c'.memory c.I ≤ 9 ∧ c'.memory (c.I + 1) ≤ 9 ∧ c'.memory (c.I + 2) ≤ 9 ∧
      100 * c'.memory c.I + 10 * c'.memory (c.I + 1) + c'.memory (c.I + 2) = c.V x ∧
      (∀ a, a ≠ c.I → a ≠ c.I + 1 → a ≠ c.I + 2 → c'.memory a = c.memory a) ∧
      c'.V = c.V ∧ c'.I = c.I := by
  have hV := hwf.V_lt x
  rw [EmulateCycle_of_Fetches c _ hf]
  have e1 : (0xF033 + 256 * x) / 4096 = 15 := by omega
  rw [e1]
  simp only [decodeTable, decodeOpcodeF, and_00FF]
  have e2 : (0xF033 + 256 * x) % 256 = 0x33 := by omega
  rw [e2]
  simp only [setBCD, writeMemory, opX, and_0F00]
  have e3 : (0xF033 + 256 * x) / 256 % 16 = x := by omega
  rw [e3]
  have b0 : c.I < 4096 := by omega
  have b1 : c.I + 1 < 4096 := by omega
  have b2 : c.I + 2 < 4096 := by omega
  simp only [if_pos b0, bind, Except.bind, if_pos b1, if_pos b2]
  have m0 : setAt (setAt (setAt c.memory c.I (c.V x / 100 % 256)) (c.I + 1)
      (c.V x % 100 / 10 % 256)) (c.I + 2) (c.V x % 10 % 256) c.I = c.V x / 100 := by
    simp [setAt]; omega
  have m1 : setAt (setAt (setAt c.memory c.I (c.V x / 100 % 256)) (c.I + 1)
      (c.V x % 100 / 10 % 256)) (c.I + 2) (c.V x % 10 % 256) (c.I + 1) = c.V x / 10 % 10 := by
    simp [setAt]; omega
  have m2 : setAt (setAt (setAt c.memory c.I (c.V x / 100 % 256)) (c.I + 1)
      (c.V x % 100 / 10 % 256)) (c.I + 2) (c.V x % 10 % 256) (c.I + 2) = c.V x % 10 := by
    simp [setAt]; omega
  refine ⟨_, rfl, ?_, ?_, ?_, ?_, ?_, ?_, ?_, ?_, ?_, ?_⟩
  · simpa using m0
  · simpa using m1
  · simpa using m2
  · simp only [updateTimers_memory, m0]; omega
  · simp only [updateTimers_memory, m1]; omega
  · simp only [updateTimers_memory, m2]; omega
  · simp only [updateTimers_memory, m0, m1, m2]; omega
  · intro a h0 h1 h2
    simp [setAt, h0, h1, h2]
  · simp
  · simp

/-- Witness for C8: F033 with V0 = 156 and I = 0x300 stores 1, 5, 6. -/
theorem bcd_digits_witness :
    ∃ c', EmulateCycle (withI (withV (withProgram 0xF033) [156]) 0x300) = .ok c' ∧
      c'.memory 0x300 = 1 ∧ c'.memory 0x301 = 5 ∧ c'.memory 0x302 = 6 := by
  have hwf : WF (withI (withV (withProgram 0xF033) [156]) 0x300) := by
    have h := WF_withV _ [156] (WF_withProgram 0xF033 (by decide)) (by decide)
    exact { h with I_lt := by decide }
  obtain ⟨c', h, m0, m1, m2, -⟩ :=
    bcd_digits (withI (withV (withProgram 0xF033) [156]) 0x300) 0 (by decide) hwf (by decide)
      (Fetches_withProgram 0xF033 (by decide))
  exact ⟨c', h, m0, m1, m2⟩

/-- C9. Fx0A with no key pressed leaves PC at its old value (also for PC = 0) and
registers, I, SP, stack, memory and framebuffer unchanged, so the same word is
fetched again; with a key pressed Vx becomes the smallest pressed index, PC
advances by 2 and the other registers keep their values. -/
theorem key_wait (c d : Chip8) (x i : Nat) (hx : x ≤ 15)
    (hfc : Fetches c (0xF00A + 256 * x)) (hnone : ∀ k, k < 16 → c.keys k = 0)
    (hfd : Fetches d (0xF00A + 256 * x)) (hi : i < 16) (hkey : d.keys i ≠ 0)
    (hmin : ∀ j, j < i → d.keys j = 0) :
    (∃ c', EmulateCycle c = .ok c' ∧ c'.pc = c.pc ∧
      c'.V = c.V ∧ c'.I = c.I ∧ c'.sp = c.sp ∧ c'.stack = c.stack ∧
      c'.memory = c.memory ∧ c'.screen = c.screen ∧
      Fetches c' (0xF00A + 256 * x)) ∧
    (∃ d', EmulateCycle d = .ok d' ∧ d'.V x = i ∧ d'.pc = d.pc + 2 ∧
      (∀ k, k ≠ x → d'.V k = d.V k)) := by
  have e1 : (0xF00A + 256 * x) / 4096 = 15 := by omega
  have e2 : (0xF00A + 256 * x) % 256 = 0x0A := by omega
  have e3 : (0xF00A + 256 * x) / 256 % 16 = x := by omega
  constructor
  · have hpc := hfc.1
    rw [EmulateCycle_of_Fetches c _ hfc, e1]
    simp only [decodeTable, decodeOpcodeF, and_00FF]
    rw [e2]
    simp only []
    rw [getKey_none { c with opcode := 0xF00A + 256 * x } hnone]
    have hp : (toU16 ((c.pc : Int) - 2) + 2) % 65536 = c.pc := by
      simp [toU16]; omega
    refine ⟨_, rfl, ?_, ?_, ?_, ?_, ?_, ?_, ?_, ?_⟩
    · simpa using hp
    · simp
    · simp
    · simp
    · simp
    · simp
    · simp
    · obtain ⟨f1, f2, f3, f4⟩ := hfc
      refine ⟨?_, ?_, ?_, f4⟩
      · simpa [hp] using f1
      · simpa [hp] using f2
      · simpa [hp] using f3
  · have hpc := hfd.1
    rw [EmulateCycle_of_Fetches d _ hfd, e1]
    simp only [decodeTable, decodeOpcodeF, and_00FF]
    rw [e2]
    simp only []
    rw [getKey_some { d with opcode := 0xF00A + 256 * x } i hi hkey hmin]
    simp only [opX, and_0F00, e3]
    refine ⟨_, rfl, ?_, ?_, ?_⟩
    · simp [setAt]; omega
    · simp; omega
    · intro k hk; simp [setAt, hk]

/-- Witness for C9: F00A at address 0 with PC = 0 and no key pressed keeps PC = 0;
F00A with keys 2 and 5 pressed stores 2 in V0. -/
theorem key_wait_witness :
    (∃ c', EmulateCycle (withPC (poke (init blank) 0 0xF00A) 0) = .ok c' ∧ c'.pc = 0) ∧
    (∃ d', EmulateCycle (withKeys (withProgram 0xF00A) [0, 0, 1, 0, 0, 1]) = .ok d' ∧
      d'.V 0 = 2 ∧ d'.pc = 0x202) := by
  have hfc : Fetches (withPC (poke (init blank) 0 0xF00A) 0) (0xF00A + 256 * 0) := by
    refine ⟨?_, ?_, ?_, ?_⟩ <;> simp [withPC, poke, setAt, init]
  obtain ⟨⟨c', h, hpc, -⟩, ⟨d', g, g0, gpc, -⟩⟩ :=
    key_wait (withPC (poke (init blank) 0 0xF00A) 0)
      (withKeys (withProgram 0xF00A) [0, 0, 1, 0, 0, 1]) 0 2 (by decide) hfc
      (by intro k _; simp [withPC, poke, init])
      (Fetches_withProgram 0xF00A (by decide)) (by decide)
      (by simp [withKeys])
      (by intro j hj; interval_cases j <;> simp [withKeys])
  exact ⟨⟨c', h, hpc⟩, ⟨d', g, g0, gpc⟩⟩

/-- Counterexample for C10: F033 with I = 4094 and delay timer 5 is an instruction
other than Fx15 and Fx18 with its fetch in bounds, but its third store goes to
memory[4096], outside the array, so the step yields no state with delay timer 4. -/
theorem timer_update_counterexample :
    Fetches (withTimers (withI (withV (withProgram 0xF033) [123]) 4094) 5 0) 0xF033 ∧
    ¬ (0xF033 / 4096 = 15 ∧ (0xF033 % 256 = 0x15 ∨ 0xF033 % 256 = 0x18)) ∧
    EmulateCycle (withTimers (withI (withV (withProgram 0xF033) [123]) 4094) 5 0) =
      .error .memoryOutOfBounds ∧
    ¬ ∃ c', EmulateCycle (withTimers (withI (withV (withProgram 0xF033) [123]) 4094) 5 0)
      = .ok c' ∧ c'.delay_timer = 4 := by
  have he : EmulateCycle (withTimers (withI (withV (withProgram 0xF033) [123]) 4094) 5 0) =
      .error .memoryOutOfBounds := rfl
  refine ⟨Fetches_withProgram 0xF033 (by decide), by decide, he, ?_⟩
  rintro ⟨c', h, -⟩
  rw [he] at h
  cases h

/-- C10 (amended). For an instruction other than Fx15 and Fx18 whose handler makes
no access outside an array, the step returns; each timer is its old value minus
1, or 0 when it was 0, and never 255; the BEEP line is written in that step
exactly when the sound timer was 1 before it (once, and followed by the bell
character only when sound is enabled); the sound-enabled flag has no effect on
the timer values. -/
theorem timer_update (c : Chip8) (op : Nat) (hwf : WF c) (hf : Fetches c op)
    (hno : ¬ (op / 4096 = 15 ∧ (op % 256 = 0x15 ∨ op % 256 = 0x18)))
    (hin : InBounds c op) :
    ∃ c', EmulateCycle c = .ok c' ∧
      c'.delay_timer = (if c.delay_timer > 0 then c.delay_timer - 1 else 0) ∧
      c'.sound_timer = (if c.sound_timer > 0 then c.sound_timer - 1 else 0) ∧
      c'.delay_timer ≠ 255 ∧ c'.sound_timer ≠ 255 ∧
      c'.cout = c.cout ++
        (if c.sound_timer = 1 then
          (if c.soundEnabled then [Output.beepLine, Output.bell] else [Output.beepLine])
         else []) ∧
      (Output.beepLine ∈ c'.cout.drop c.cout.length ↔ c.sound_timer = 1) ∧
      (c'.cout.drop c.cout.length).count Output.beepLine ≤ 1 ∧
      (∀ b, ∃ c'', EmulateCycle { c with soundEnabled := b } = .ok c'' ∧
        c''.delay_timer = c'.delay_timer ∧ c''.sound_timer = c'.sound_timer) := by
  have hd := hwf.delay_lt
  have hs := hwf.sound_lt
  have hw : nextWord c = op := nextWord_of_Fetches c op hf
  have h : EmulateCycle c = .ok (stepOr c) :=
    EmulateCycle_total c hf.1 (by rw [hw]; exact hin)
  obtain ⟨t1, t2, t3⟩ := step_timers c (stepOr c) op hf hno h
  refine ⟨stepOr c, h, ?_, ?_, ?_, ?_, t3, ?_, ?_, ?_⟩
  · rw [t1]; split_ifs <;> omega
  · rw [t2]; split_ifs <;> omega
  · omega
  · omega
  · rw [t3, List.drop_left]
    by_cases h1 : c.sound_timer = 1 <;> by_cases h2 : c.soundEnabled = true <;> simp [h1, h2]
  · rw [t3, List.drop_left]
    by_cases h1 : c.sound_timer = 1 <;> by_cases h2 : c.soundEnabled = true <;> simp [h1, h2]
  · intro b
    have hfb : Fetches { c with soundEnabled := b } op := hf
    have hwb : nextWord { c with soundEnabled := b } = op := nextWord_of_Fetches _ op hfb
    have hb : EmulateCycle { c with soundEnabled := b } =
        .ok (stepOr { c with soundEnabled := b }) :=
      EmulateCycle_total _ hf.1 (by rw [hwb]; exact hin)
    obtain ⟨u1, u2, -⟩ := step_timers { c with soundEnabled := b } _ op hfb hno hb
    exact ⟨_, hb, by rw [u1, t1], by rw [u2, t2]⟩

/-- Witness for C10: the word 6005 executed with delay timer 0 and sound timer 1
leaves both timers 0 and writes the BEEP line once; with sound timer 0 nothing is
written. -/
theorem timer_update_witness :
    (∃ c', EmulateCycle (withTimers (withProgram 0x6005) 0 1) = .ok c' ∧
      c'.delay_timer = 0 ∧ c'.sound_timer = 0 ∧ c'.cout = [Output.beepLine, Output.bell]) ∧
    (∃ d', EmulateCycle (withTimers (withProgram 0x6005) 0 0) = .ok d' ∧
      d'.delay_timer = 0 ∧ d'.sound_timer = 0 ∧ d'.cout = []) := by
  have hw1 : WF (withTimers (withProgram 0x6005) 0 1) :=
    { WF_withProgram 0x6005 (by decide) with delay_lt := by decide, sound_lt := by decide }
  have hw0 : WF (withTimers (withProgram 0x6005) 0 0) :=
    { WF_withProgram 0x6005 (by decide) with delay_lt := by decide, sound_lt := by decide }
  obtain ⟨c', h, a1, a2, -, -, a3, -⟩ :=
    timer_update (withTimers (withProgram 0x6005) 0 1) 0x6005 hw1
      (Fetches_withProgram 0x6005 (by decide)) (by decide) (by decide)
  obtain ⟨d', g, b1, b2, -, -, b3, -⟩ :=
    timer_update (withTimers (withProgram 0x6005) 0 0) 0x6005 hw0
      (Fetches_withProgram 0x6005 (by decide)) (by decide) (by decide)
  exact ⟨⟨c', h, a1, a2, a3⟩, ⟨d', g, b1, b2, b3⟩⟩

/-- C12. A file of at most 3584 bytes is loaded: LoadApplication returns true,
memory[512 + i] is byte i of the file, every memory byte outside
[512, 512 + len) keeps its value, and registers, I, PC, SP, stack, timers,
framebuffer and key-pad keep their values. -/
theorem load_effect (bytes : List (Fin 256)) (c : Chip8) (hlen : bytes.length ≤ 3584) :
    (LoadApplication (some bytes) c).1 = true ∧
    (∀ i (h : i < bytes.length),
      (LoadApplication (some bytes) c).2.memory (512 + i) = ((bytes[i] : Fin 256) : Nat)) ∧
    (∀ a, (a < 512 ∨ 512 + bytes.length ≤ a) →
      (LoadApplication (some bytes) c).2.memory a = c.memory a) ∧
    (LoadApplication (some bytes) c).2.V = c.V ∧
    (LoadApplication (some bytes) c).2.I = c.I ∧
    (LoadApplication (some bytes) c).2.pc = c.pc ∧
    (LoadApplication (some bytes) c).2.sp = c.sp ∧
    (LoadApplication (some bytes) c).2.stack = c.stack ∧
    (LoadApplication (some bytes) c).2.delay_timer = c.delay_timer ∧
    (LoadApplication (some bytes) c).2.sound_timer = c.sound_timer ∧
    (LoadApplication (some bytes) c).2.screen = c.screen ∧
    (LoadApplication (some bytes) c).2.keys = c.keys := by
  have hn := toInt32_small bytes.length (by omega)
  have hi : ¬ toInt32 bytes.length > 4096 - 512 := by rw [hn]; omega
  have ht : (toInt32 bytes.length).toNat = bytes.length := by rw [hn]; omega
  have e : LoadApplication (some bytes) c = (true, { c with
      memory := fun a =>
        if 512 ≤ a ∧ a < 512 + bytes.length then ((bytes.getD (a - 512) 0 : Fin 256) : Nat)
        else c.memory a }) := by
    simp only [LoadApplication, if_neg hi, ht]
  rw [e]
  refine ⟨rfl, ?_, ?_, rfl, rfl, rfl, rfl, rfl, rfl, rfl, rfl, rfl⟩
  · intro i h
    have hr : 512 ≤ 512 + i ∧ 512 + i < 512 + bytes.length := by omega
    simp only [if_pos hr, Nat.add_sub_cancel_left]
    rw [List.getD_eq_getElem _ _ h]
  · intro a ha
    have hr : ¬ (512 ≤ a ∧ a < 512 + bytes.length) := by omega
    simp only [if_neg hr]

/-- Witness for C12: loading the two bytes 0x12, 0x34 after construction. -/
theorem load_effect_witness :
    (LoadApplication (some [0x12, 0x34]) (init blank)).1 = true ∧
    (LoadApplication (some [0x12, 0x34]) (init blank)).2.memory 512 = 0x12 ∧
    (LoadApplication (some [0x12, 0x34]) (init blank)).2.memory 513 = 0x34 ∧
    (LoadApplication (some [0x12, 0x34]) (init blank)).2.memory 0 = 0xF0 ∧
    (LoadApplication (some [0x12, 0x34]) (init blank)).2.memory 514 = 0 := by
  obtain ⟨h1, h2, h3, -⟩ := load_effect [0x12, 0x34] (init blank) (by decide)
  exact ⟨h1, h2 0 (by decide), h2 1 (by decide), h3 0 (by decide), h3 514 (by decide)⟩

/-- Counterexample for C13: init applied to a state whose stack entry 0 holds
0x202 leaves that entry at 0x202, so not all stack entries are zero. -/
theorem init_state_counterexample :
    (init (withStack blank [0x202] 1)).stack 0 = 0x202 ∧
    ¬ (∀ k, k < 16 → (init (withStack blank [0x202] 1)).stack k = 0) := by
  refine ⟨rfl, ?_⟩
  intro h
  have h0 := h 0 (by decide)
  have h1 : (init (withStack blank [0x202] 1)).stack 0 = 0x202 := rfl
  omega

/-- C13 (amended). Applied to any state, init yields memory[0..79] equal to the
80-byte font table and memory[80..4095] zero, all registers, framebuffer cells
and key-pad entries zero, both timers zero, PC = 0x200, SP = 0, I = 0 and
sound-enabled true; the stack entries keep the values they had. -/
theorem init_state (c : Chip8) :
    fontset.length = 80 ∧
    (∀ a, a < 80 → (init c).memory a = fontset.getD a 0) ∧
    (∀ a, 80 ≤ a → a < 4096 → (init c).memory a = 0) ∧
    (∀ k, k < 16 → (init c).V k = 0) ∧
    (∀ p, p < 2048 → (init c).screen p = 0) ∧
    (∀ k, k < 16 → (init c).keys k = 0) ∧
    (init c).stack = c.stack ∧
    (init c).delay_timer = 0 ∧ (init c).sound_timer = 0 ∧
    (init c).pc = 0x200 ∧ (init c).sp = 0 ∧ (init c).I = 0 ∧
    (init c).soundEnabled = true := by
  refine ⟨rfl, ?_, ?_, ?_, ?_, ?_, rfl, rfl, rfl, rfl, rfl, rfl, rfl⟩
  · intro a ha
    simp only [init, if_pos ha]
  · intro a ha _
    have h : ¬ a < 80 := by omega
    simp only [init, if_neg h]
  · intro k _; rfl
  · intro p _; rfl
  · intro k _; rfl

/-- Counterexample for C14: words outside the instruction table that are not
no-ops. 0000 clears a lit pixel, 5011 and 9011 skip, 8018 doubles V0, E000 skips
on a pressed key, and 0002 with an empty stack reads outside the stack. -/
theorem unrecognized_counterexample :
    (∃ c', EmulateCycle (withScreen (withProgram 0x0000) [1]) = .ok c' ∧
      (withScreen (withProgram 0x0000) [1]).screen 0 = 1 ∧ c'.screen 0 = 0) ∧
    (∃ c', EmulateCycle (withProgram 0x5011) = .ok c' ∧ c'.pc = 0x204) ∧
    (∃ c', EmulateCycle (withV (withProgram 0x8018) [1]) = .ok c' ∧
      (withV (withProgram 0x8018) [1]).V 0 = 1 ∧ c'.V 0 = 2) ∧
    (∃ c', EmulateCycle (withV (withProgram 0x9011) [1]) = .ok c' ∧ c'.pc = 0x204) ∧
    (∃ c', EmulateCycle (withKeys (withProgram 0xE000) [1]) = .ok c' ∧ c'.pc = 0x204) ∧
    EmulateCycle (withProgram 0x0002) = .error .stackOutOfBounds := by
  refine ⟨⟨_, rfl, rfl, rfl⟩, ⟨_, rfl, rfl⟩, ⟨_, rfl, rfl, rfl⟩, ⟨_, rfl, rfl⟩, ⟨_, rfl, rfl⟩, rfl⟩

/-- C14 (amended). An Fxnn word whose low byte is none of 07, 0A, 15, 18, 1E, 29,
33, 55, 65 is a no-op: the step returns, PC advances by 2, and registers, I, SP,
stack, memory and framebuffer keep their values. -/
theorem unrecognized_F_noop (c : Chip8) (x nn : Nat) (hx : x ≤ 15) (hnn : nn ≤ 255)
    (hlow : nn ≠ 0x07 ∧ nn ≠ 0x0A ∧ nn ≠ 0x15 ∧ nn ≠ 0x18 ∧ nn ≠ 0x1E ∧ nn ≠ 0x29 ∧
      nn ≠ 0x33 ∧ nn ≠ 0x55 ∧ nn ≠ 0x65)
    (hf : Fetches c (0xF000 + 256 * x + nn)) :
    ∃ c', EmulateCycle c = .ok c' ∧ c'.pc = c.pc + 2 ∧
      c'.V = c.V ∧ c'.I = c.I ∧ c'.sp = c.sp ∧ c'.stack = c.stack ∧
      c'.memory = c.memory ∧ c'.screen = c.screen := by
  have hpc := hf.1
  rw [EmulateCycle_of_Fetches c _ hf]
  have e1 : (0xF000 + 256 * x + nn) / 4096 = 15 := by omega
  rw [e1]
  have e2 : (0xF000 + 256 * x + nn) % 256 = nn := by omega
  have hd : decodeOpcodeF { c with opcode := 0xF000 + 256 * x + nn } =
      .ok { c with opcode := 0xF000 + 256 * x + nn } := by
    unfold decodeOpcodeF
    simp only [and_00FF, e2]
    split <;> first | rfl | omega
  simp only [decodeTable, hd]
  refine ⟨_, rfl, ?_, ?_, ?_, ?_, ?_, ?_, ?_⟩ <;> simp
  omega

/-- Witness for C14 (amended): the word F0FF after construction. -/
theorem unrecognized_F_noop_witness :
    ∃ c', EmulateCycle (withProgram 0xF0FF) = .ok c' ∧ c'.pc = 0x202 ∧
      c'.V = (withProgram 0xF0FF).V ∧ c'.memory = (withProgram 0xF0FF).memory := by
  obtain ⟨c', h, hpc, hV, -, -, -, hm, -⟩ :=
    unrecognized_F_noop (withProgram 0xF0FF) 0 0xFF (by decide) (by decide) (by decide)
      (Fetches_withProgram 0xF0FF (by decide))
  exact ⟨c', h, hpc, hV, hm⟩

/-- C15 (evaluation). With SP = 0 the word 00EE makes the step read stack[65535],
and with SP = 16 the word 2300 makes it write stack[16]: both accesses lie
outside the 16-entry stack, and no error is reported by the source. -/
theorem stack_misuse_out_of_bounds :
    (withProgram 0x00EE).sp = 0 ∧
    toU16 (((withProgram 0x00EE).sp : Int) - 1) = 65535 ∧
    EmulateCycle (withProgram 0x00EE) = .error .stackOutOfBounds ∧
    (withStack (withProgram 0x2300) [] 16).sp = 16 ∧
    EmulateCycle (withStack (withProgram 0x2300) [] 16) = .error .stackOutOfBounds := by
  refine ⟨rfl, rfl, rfl, rfl, rfl⟩

/-- C16 (evaluation). FF1E with VF = 5 and I = 0x100 leaves I = 0x100 and VF = 0:
the flag is stored first and the addition then reads the new VF, so the old
value 5 is not added. -/
theorem addToI_flag_source :
    ∃ c', EmulateCycle
        (withI (withV (withProgram 0xFF1E) [0, 0, 0, 0, 0, 0, 0, 0, 0, 0, 0, 0, 0, 0, 0, 5])
          0x100) = .ok c' ∧
      c'.I = 0x100 ∧ c'.V 0xF = 0 ∧ c'.I ≠ (0x100 + 5) % 65536 := by
  refine ⟨_, rfl, rfl, rfl, ?_⟩
  decide

/-- Fx1E with x in 0..14: VF is the carry out of 16 bits of I + Vx and I is the sum
modulo 65536. -/
theorem addToI_low (c : Chip8) (x : Nat) (hx : x ≤ 14) (hwf : WF c)
    (hf : Fetches c (0xF01E + 256 * x)) :
    ∃ c', EmulateCycle c = .ok c' ∧
      c'.V 0xF = (if c.I + c.V x > 0xFFFF then 1 else 0) ∧
      c'.I = (c.I + c.V x) % 65536 := by
  have hI := hwf.I_lt
  have hV := hwf.V_lt x
  rw [EmulateCycle_of_Fetches c _ hf]
  have e1 : (0xF01E + 256 * x) / 4096 = 15 := by omega
  rw [e1]
  have e2 : (0xF01E + 256 * x) % 256 = 0x1E := by omega
  have e3 : (0xF01E + 256 * x) / 256 % 16 = x := by omega
  simp only [decodeTable, decodeOpcodeF, and_00FF, e2, addToI, opX, and_0F00, e3]
  have hx15 : x ≠ 15 := by omega
  refine ⟨_, rfl, ?_, ?_⟩
  · simp [setAt, Nat.shiftRight_eq_div_pow]
    split_ifs <;> omega
  · simp [setAt, hx15]

/-- C17. With I + x <= 4095, Fx55 leaves memory[I + k] = Vk for every k <= x, the
other memory bytes, the registers and I unchanged; Fx65 leaves Vk = memory[I + k]
for every k <= x, the registers above Vx, memory and I unchanged; Fx65 executed
right after Fx55 with the same x leaves V0..Vx at the values they had before the
Fx55. -/
theorem register_block_transfer (c d : Chip8) (x : Nat) (hx : x ≤ 15)
    (hfc : Fetches c (0xF055 + 256 * x)) (hIc : c.I + x ≤ 4095)
    (hfd : Fetches d (0xF065 + 256 * x)) (hId : d.I + x ≤ 4095) :
    (∃ c', EmulateCycle c = .ok c' ∧
      (∀ k, k ≤ x → c'.memory (c.I + k) = c.V k) ∧
      (∀ a, (a < c.I ∨ c.I + x < a) → c'.memory a = c.memory a) ∧
      c'.V = c.V ∧ c'.I = c.I ∧
      (Fetches c' (0xF065 + 256 * x) →
        ∃ c'', EmulateCycle c' = .ok c'' ∧ c''.I = c.I ∧ ∀ k, k ≤ x → c''.V k = c.V k)) ∧
    (∃ d', EmulateCycle d = .ok d' ∧
      (∀ k, k ≤ x → d'.V k = d.memory (d.I + k)) ∧
      (∀ k, x < k → d'.V k = d.V k) ∧
      d'.memory = d.memory ∧ d'.I = d.I) := by
  refine ⟨?_, loadRegisters_step d x hx hfd hId⟩
  obtain ⟨c', h, hm, hrest, hV, hI⟩ := storeRegisters_step c x hx hfc hIc
  refine ⟨c', h, hm, hrest, hV, hI, ?_⟩
  intro hf2
  obtain ⟨c'', h2, hl, -, -, hI2⟩ := loadRegisters_step c' x hx hf2 (by rw [hI]; exact hIc)
  refine ⟨c'', h2, by rw [hI2, hI], ?_⟩
  intro k hk
  rw [hl k hk, hI, hm k hk]

/-- Witness for C17: F155 at 0x200 followed by F165 at 0x202, with V0 = 7, V1 = 9
and I = 0x300; and F165 alone reading the first two font bytes at I = 0. -/
theorem register_block_transfer_witness :
    (∃ c' c'', EmulateCycle (withI (withV (poke (withProgram 0xF155) 0x202 0xF165) [7, 9]) 0x300)
        = .ok c' ∧
      c'.memory 0x300 = 7 ∧ c'.memory 0x301 = 9 ∧
      EmulateCycle c' = .ok c'' ∧ c''.V 0 = 7 ∧ c''.V 1 = 9) ∧
    (∃ d', EmulateCycle (withProgram 0xF165) = .ok d' ∧ d'.V 0 = 0xF0 ∧ d'.V 1 = 0x90) := by
  have hfc : Fetches (withI (withV (poke (withProgram 0xF155) 0x202 0xF165) [7, 9]) 0x300)
      (0xF055 + 256 * 1) := by
    refine ⟨?_, ?_, ?_, ?_⟩ <;> simp [withI, withV, poke, withProgram, setAt, init]
  obtain ⟨⟨c', h, hm, hrest, -, -, hrt⟩, ⟨d', g, gl, -⟩⟩ :=
    register_block_transfer (withI (withV (poke (withProgram 0xF155) 0x202 0xF165) [7, 9]) 0x300)
      (withProgram 0xF165) 1 (by decide) hfc (by decide)
      (Fetches_withProgram 0xF165 (by decide)) (by decide)
  have hpc : c'.pc = 0x202 := by
    have := EmulateCycle_of_Fetches _ _ hfc
    rw [this] at h
    cases h
    rfl
  have hf2 : Fetches c' (0xF065 + 256 * 1) := by
    refine ⟨?_, ?_, ?_, ?_⟩
    · rw [hpc]; decide
    · rw [hpc, hrest 0x202 (Or.inl (by decide))]; rfl
    · rw [hpc, hrest 0x203 (Or.inl (by decide))]; rfl
    · decide
  obtain ⟨c'', h2, -, hv⟩ := hrt hf2
  exact ⟨⟨c', c'', h, hm 0 (by decide), hm 1 (by decide), h2, hv 0 (by decide),
    hv 1 (by decide)⟩, ⟨d', g, gl 0 (by decide), gl 1 (by decide)⟩⟩

/-- C18. For x and y in 0..14 and a state within the bounds of Dxyn, two steps on
the same Dxyn word leave the framebuffer as it was before the first; when the
framebuffer starts all-zero and the sprite has a set bit, the first draw leaves
VF = 0 and the sprite pattern on screen, the second leaves VF = 1 and the
framebuffer all-zero. -/
theorem sprite_twice (c : Chip8) (x y n : Nat) (hx : x ≤ 14) (hy : y ≤ 14) (hn : n ≤ 15)
    (hf : Fetches c (0xD000 + 256 * x + 16 * y + n))
    (hbyte : ∀ p, p < 2048 → c.screen p < 256)
    (hVx : c.V x ≤ 56) (hVy : c.V y + n ≤ 32) (hI : c.I + n ≤ 4096) :
    ∃ c1, EmulateCycle c = .ok c1 ∧
      (Fetches c1 (0xD000 + 256 * x + 16 * y + n) →
        ∃ c2, EmulateCycle c1 = .ok c2 ∧ c2.screen = c.screen ∧
          ((∀ p, p < 2048 → c.screen p = 0) →
            (∃ i j, i < n ∧ j < 8 ∧ c.memory (c.I + i) / 2 ^ (7 - j) % 2 = 1) →
            c1.V 0xF = 0 ∧
            (∀ i j, i < n → j < 8 →
              c1.screen (64 * (c.V y + i) + (c.V x + j)) =
                c.memory (c.I + i) / 2 ^ (7 - j) % 2) ∧
            c2.V 0xF = 1 ∧ (∀ p, p < 2048 → c2.screen p = 0))) := by
  obtain ⟨c1, h1, hd1, hr1, hfl1, h011, hI1, hm1, hV1, -⟩ :=
    sprite_step c x y n (by omega) (by omega) hn hf hbyte hVx hVy hI
  refine ⟨c1, h1, ?_⟩
  intro hf1
  have hx1 : c1.V x = c.V x := hV1 x (by omega)
  have hy1 : c1.V y = c.V y := hV1 y (by omega)
  have hbit1 : ∀ i j, spriteBit c1 i j = spriteBit c i j := by
    intro i j; unfold spriteBit; rw [hm1, hI1]
  have hbit2 : ∀ i j, spriteBit c i j < 2 := fun i j => Nat.mod_lt _ (by decide)
  have hpix : ∀ i j, i < n → j < 8 → pix (c.V x) (c.V y) i j < 2048 := by
    intro i j hi hj; unfold pix; omega
  have hbyte1 : ∀ p, p < 2048 → c1.screen p < 256 := by
    intro p hp
    by_cases hin : ∃ i j, i < n ∧ j < 8 ∧ p = pix (c.V x) (c.V y) i j
    · obtain ⟨i, j, hi, hj, rfl⟩ := hin
      rw [hd1 i j hi hj]
      have hb := hbit2 i j
      exact Nat.xor_lt_two_pow (n := 8) (hbyte _ hp) (by omega)
    · rw [hr1 p (fun i j hi hj heq => hin ⟨i, j, hi, hj, heq⟩)]
      exact hbyte p hp
  obtain ⟨c2, h2, hd2, hr2, hfl2, -, -, -, -, -⟩ :=
    sprite_step c1 x y n (by omega) (by omega) hn hf1 hbyte1 (by rw [hx1]; exact hVx)
      (by rw [hy1]; exact hVy) (by rw [hI1]; exact hI)
  rw [hx1, hy1] at hd2 hr2 hfl2
  simp only [hbit1] at hd2 hfl2
  have hscreen : c2.screen = c.screen := by
    funext p
    by_cases hin : ∃ i j, i < n ∧ j < 8 ∧ p = pix (c.V x) (c.V y) i j
    · obtain ⟨i, j, hi, hj, rfl⟩ := hin
      rw [hd2 i j hi hj, hd1 i j hi hj, Nat.xor_assoc, Nat.xor_self, Nat.xor_zero]
    · rw [hr2 p (fun i j hi hj heq => hin ⟨i, j, hi, hj, heq⟩),
        hr1 p (fun i j hi hj heq => hin ⟨i, j, hi, hj, heq⟩)]
  refine ⟨c2, h2, hscreen, ?_⟩
  intro hzero hset
  obtain ⟨i0, j0, hi0, hj0, hb0⟩ := hset
  have hpa : ∀ i j, 64 * (c.V y + i) + (c.V x + j) = pix (c.V x) (c.V y) i j := by
    intro i j; unfold pix; omega
  refine ⟨?_, ?_, ?_, ?_⟩
  · rcases h011 with h | h
    · obtain ⟨i, j, hi, hj, -, hs⟩ := hfl1.1 h
      rw [hzero _ (hpix i j hi hj)] at hs
      omega
    · exact h
  · intro i j hi hj
    rw [hpa, hd1 i j hi hj, hzero _ (hpix i j hi hj), Nat.zero_xor]
    rfl
  · apply hfl2.2
    refine ⟨i0, j0, hi0, hj0, hb0, ?_⟩
    rw [hd1 i0 j0 hi0 hj0, hzero _ (hpix i0 j0 hi0 hj0), Nat.zero_xor]
    exact hb0
  · intro p hp
    rw [hscreen]; exact hzero p hp

/-- Witness for C18: the font glyph "0" (I = 0, n = 5) drawn twice at (0, 0) by
the word D015 stored at 0x200 and at 0x202. -/
theorem sprite_twice_witness :
    ∃ c1 c2, EmulateCycle (poke (withProgram 0xD015) 0x202 0xD015) = .ok c1 ∧
      EmulateCycle c1 = .ok c2 ∧
      c1.V 0xF = 0 ∧ c1.screen 0 = 1 ∧ c1.screen 64 = 1 ∧ c1.screen 65 = 0 ∧
      c2.V 0xF = 1 ∧ (∀ p, p < 2048 → c2.screen p = 0) := by
  have hf : Fetches (poke (withProgram 0xD015) 0x202 0xD015) (0xD000 + 256 * 0 + 16 * 1 + 5) := by
    refine ⟨?_, ?_, ?_, ?_⟩ <;> simp [poke, withProgram, setAt, init]
  obtain ⟨c1, h1, hrt⟩ :=
    sprite_twice (poke (withProgram 0xD015) 0x202 0xD015) 0 1 5 (by decide) (by decide)
      (by decide) hf (by intro p _; exact Nat.lt_of_le_of_lt (Nat.le_refl 0) (by decide))
      (by decide) (by decide) (by decide)
  have e1 : EmulateCycle (poke (withProgram 0xD015) 0x202 0xD015) =
      .ok (stepOr (poke (withProgram 0xD015) 0x202 0xD015)) := by
    unfold stepOr; rw [h1]
  have hc1 : c1 = stepOr (poke (withProgram 0xD015) 0x202 0xD015) := by
    rw [h1] at e1; cases e1; rfl
  have hf1 : Fetches c1 (0xD000 + 256 * 0 + 16 * 1 + 5) := by
    rw [hc1]
    exact ⟨by decide, by decide, by decide, by decide⟩
  obtain ⟨c2, h2, -, hvf⟩ := hrt hf1
  obtain ⟨v1, hpat, v2, hz⟩ := hvf (fun p _ => rfl) ⟨0, 0, by decide, by decide, by decide⟩
  exact ⟨c1, c2, h1, h2, v1, hpat 0 0 (by decide) (by decide), hpat 1 0 (by decide) (by decide),
    hpat 1 1 (by decide) (by decide), v2, hz⟩

/-- Counterexample for C19: F015 with V0 = 5 followed by F133 with I = 4094. The
second step executes no Fx15 and its fetch is in bounds, but its third store goes
to memory[4096], outside the array, so the run yields no state with delay
timer 3. -/
theorem delay_countdown_counterexample :
    ∃ c1, EmulateCycle (withI (withV (poke (withProgram 0xF015) 0x202 0xF133) [5, 5]) 4094)
        = .ok c1 ∧
      c1.delay_timer = 4 ∧ c1.pc + 1 < 4096 ∧ nextWord c1 = 0xF133 ∧
      ¬ isFx15 (nextWord c1) ∧
      runSteps 1 c1 = .error .memoryOutOfBounds ∧
      ¬ ∃ ck, runSteps 1 c1 = .ok ck ∧ ck.delay_timer = 3 := by
  have he : runSteps 1
      (stepOr (withI (withV (poke (withProgram 0xF015) 0x202 0xF133) [5, 5]) 4094)) =
      .error .memoryOutOfBounds := rfl
  refine ⟨stepOr (withI (withV (poke (withProgram 0xF015) 0x202 0xF133) [5, 5]) 4094),
    rfl, by decide, by decide, by decide, by decide, he, ?_⟩
  rintro ⟨ck, h, -⟩
  rw [he] at h
  cases h

/-- C19 (amended). After a step executing Fx15 with Vx = v (a byte) and k further
steps, none of which executes Fx15 or makes an access outside an array, the run
returns and the delay timer is max(v - 1 - k, 0); it is 0 from the v-th further
step on and never exceeds 254, so it neither goes below 0 nor wraps. -/
theorem delay_countdown (c : Chip8) (x : Nat) (hx : x ≤ 15) (hv : c.V x ≤ 255)
    (hf : Fetches c (0xF015 + 256 * x)) :
    ∃ c1, EmulateCycle c = .ok c1 ∧
      (c1.delay_timer : Int) = max ((c.V x : Int) - 1) 0 ∧
      ∀ k, SafeRun k c1 →
        ∃ ck, runSteps k c1 = .ok ck ∧
          (ck.delay_timer : Int) = max ((c.V x : Int) - 1 - (k : Int)) 0 ∧
          (c.V x ≤ k → ck.delay_timer = 0) ∧
          ck.delay_timer ≤ 254 := by
  have e1 : (0xF015 + 256 * x) / 4096 = 15 := by omega
  have e2 : (0xF015 + 256 * x) % 256 = 0x15 := by omega
  have e3 : (0xF015 + 256 * x) / 256 % 16 = x := by omega
  have hstep : ∃ c1, EmulateCycle c = .ok c1 ∧ c1.delay_timer = c.V x - 1 := by
    rw [EmulateCycle_of_Fetches c _ hf, e1]
    simp only [decodeTable, decodeOpcodeF, and_00FF, e2, setDelay, opX, and_0F00, e3]
    exact ⟨_, rfl, by rw [updateTimers_delay]⟩
  obtain ⟨c1, h1, hd1⟩ := hstep
  refine ⟨c1, h1, by omega, ?_⟩
  intro k hsafe
  obtain ⟨ck, hrun, hk⟩ := runSteps_total k c1 hsafe
  exact ⟨ck, hrun, by omega, fun _ => by omega, by omega⟩

/-- Witness for C19: F015 with V0 = 5 followed by five steps on the zero words
that init left in memory: the delay timer is 4 after the F015 step and 0 after
the fifth further step. -/
theorem delay_countdown_witness :
    ∃ c1 ck, EmulateCycle (withV (withProgram 0xF015) [5]) = .ok c1 ∧
      c1.delay_timer = 4 ∧ runSteps 5 c1 = .ok ck ∧ ck.delay_timer = 0 := by
  obtain ⟨c1, h1, hd, hall⟩ :=
    delay_countdown (withV (withProgram 0xF015) [5]) 0 (by decide) (by decide)
      (Fetches_withV _ _ _ (Fetches_withProgram 0xF015 (by decide)))
  have hc1 : c1 = stepOr (withV (withProgram 0xF015) [5]) := by
    have e : stepOr (withV (withProgram 0xF015) [5]) = c1 := by
      unfold stepOr; rw [h1]
    exact e.symm
  have hsafe : SafeRun 5 c1 := by
    rw [hc1]
    decide
  obtain ⟨ck, hrun, -, hz, -⟩ := hall 5 hsafe
  refine ⟨c1, ck, h1, ?_, hrun, hz (by decide)⟩
  have hv0 : ((withV (withProgram 0xF015) [5]).V 0 : Int) = 5 := rfl
  rw [hv0] at hd
  omega

/-- C20. 7xnn leaves Vx = (Vx + nn) mod 256 and every other register unchanged, so
VF keeps its value whenever x differs from F, also when the sum exceeds 255; PC
advances by 2. -/
theorem add_immediate (c : Chip8) (x nn : Nat) (hx : x ≤ 15) (hnn : nn ≤ 255)
    (hf : Fetches c (0x7000 + 256 * x + nn)) :
    ∃ c', EmulateCycle c = .ok c' ∧
      c'.V x = (c.V x + nn) % 256 ∧
      (∀ k, k ≠ x → c'.V k = c.V k) ∧
      (x ≠ 0xF → c'.V 0xF = c.V 0xF) ∧
      c'.pc = c.pc + 2 := by
  have hpc := hf.1
  rw [EmulateCycle_of_Fetches c _ hf]
  have e1 : (0x7000 + 256 * x + nn) / 4096 = 7 := by omega
  rw [e1]
  have e2 : (0x7000 + 256 * x + nn) % 256 = nn := by omega
  have e3 : (0x7000 + 256 * x + nn) / 256 % 16 = x := by omega
  simp only [decodeTable, AddN, opX, and_0F00, and_00FF, e2, e3]
  refine ⟨_, rfl, ?_, ?_, ?_, ?_⟩
  · simp [setAt]
  · intro k hk; simp [setAt, hk]
  · intro hk; simp [setAt, Ne.symm hk]
  · simp; omega

/-- Witness for C20: 7105 with V1 = 0x14 leaves V1 = 0x19 and VF unchanged; 71FF
with V1 = 0x14 wraps to 0x13 and still leaves VF unchanged. -/
theorem add_immediate_witness :
    (∃ c', EmulateCycle (withV (withProgram 0x7105) [0, 0x14]) = .ok c' ∧
      c'.V 1 = 0x19 ∧ c'.V 0xF = 0 ∧ c'.pc = 0x202) ∧
    (∃ d', EmulateCycle (withV (withProgram 0x71FF) [0, 0x14]) = .ok d' ∧
      d'.V 1 = 0x13 ∧ d'.V 0xF = 0) := by
  obtain ⟨c', h, h1, -, hF, hpc⟩ :=
    add_immediate (withV (withProgram 0x7105) [0, 0x14]) 1 5 (by decide) (by decide)
      (Fetches_withV _ _ _ (Fetches_withProgram 0x7105 (by decide)))
  obtain ⟨d', g, g1, -, gF, -⟩ :=
    add_immediate (withV (withProgram 0x71FF) [0, 0x14]) 1 0xFF (by decide) (by decide)
      (Fetches_withV _ _ _ (Fetches_withProgram 0x71FF (by decide)))
  exact ⟨⟨c', h, h1, hF (by decide), hpc⟩, ⟨d', g, g1, gF (by decide)⟩⟩

/-- C21. With PC <= 4094, memory[PC] = 0x60 + x and memory[PC + 1] = nn, one step
assembles the word memory[PC] * 256 + memory[PC + 1], leaves Vx = nn and
PC = old PC + 2, and changes no other register, nor I, SP, stack, memory or
framebuffer. -/
theorem set_immediate_end_to_end (c : Chip8) (x nn : Nat) (hx : x ≤ 15) (hnn : nn ≤ 255)
    (hpc : c.pc ≤ 4094) (hhi : c.memory c.pc = 0x60 + x) (hlo : c.memory (c.pc + 1) = nn) :
    ∃ c', EmulateCycle c = .ok c' ∧
      c'.opcode = c.memory c.pc * 256 + c.memory (c.pc + 1) ∧
      c'.V x = nn ∧ (∀ k, k ≠ x → c'.V k = c.V k) ∧
      c'.I = c.I ∧ c'.sp = c.sp ∧ c'.stack = c.stack ∧ c'.memory = c.memory ∧
      c'.screen = c.screen ∧ c'.pc = c.pc + 2 := by
  have hf : Fetches c (0x6000 + 256 * x + nn) := by
    refine ⟨by omega, ?_, ?_, by omega⟩
    · rw [hhi]; omega
    · rw [hlo]; omega
  rw [EmulateCycle_of_Fetches c _ hf]
  have e1 : (0x6000 + 256 * x + nn) / 4096 = 6 := by omega
  rw [e1]
  have e2 : (0x6000 + 256 * x + nn) % 256 % 256 = nn := by omega
  have e3 : (0x6000 + 256 * x + nn) / 256 % 16 = x := by omega
  simp only [decodeTable, setToN, opX, and_0F00, and_00FF, e2, e3]
  refine ⟨_, rfl, ?_, ?_, ?_, ?_, ?_, ?_, ?_, ?_, ?_⟩
  · simp only [updateTimers_opcode, hhi, hlo]; omega
  · simp [setAt]
  · intro k hk; simp [setAt, hk]
  · simp
  · simp
  · simp
  · simp
  · simp
  · simp; omega

/-- Witness for C21: the bytes 0x6A, 0x2B at PC = 0x200 after construction leave
VA = 0x2B and PC = 0x202. -/
theorem set_immediate_end_to_end_witness :
    ∃ c', EmulateCycle (withProgram 0x6A2B) = .ok c' ∧
      c'.opcode = 0x6A2B ∧ c'.V 0xA = 0x2B ∧ c'.V 0 = 0 ∧ c'.pc = 0x202 := by
  obtain ⟨c', h, hop, hv, hk, -, -, -, -, -, hpc⟩ :=
    set_immediate_end_to_end (withProgram 0x6A2B) 0xA 0x2B (by decide) (by decide)
      (by decide) (by decide) (by decide)
  exact ⟨c', h, hop, hv, hk 0 (by decide), hpc⟩

/-- C22 (evaluation). 80F4 with V0 = 10 and VF = 5 leaves VF = 0 and V0 = 10: the
carry is stored in VF first and the addition then reads the new VF, so the old
value 5 is not added. -/
theorem add_flag_operand :
    ∃ c', EmulateCycle
        (withV (withProgram 0x80F4) [10, 0, 0, 0, 0, 0, 0, 0, 0, 0, 0, 0, 0, 0, 0, 5]) = .ok c' ∧
      c'.V 0xF = 0 ∧ c'.V 0 = 10 ∧ c'.V 0 ≠ (10 + 5) % 256 := by
  refine ⟨_, rfl, rfl, rfl, ?_⟩
  decide

/-- 8xF4 with x in 0..14: VF is the carry of Vx + VF, and Vx becomes Vx plus that
carry, modulo 256. -/
theorem add_flag_operand_general (c : Chip8) (x : Nat) (hx : x ≤ 14) (hwf : WF c)
    (hf : Fetches c (0x80F4 + 256 * x)) :
    ∃ c', EmulateCycle c = .ok c' ∧
      c'.V 0xF = (if c.V x + c.V 0xF > 255 then 1 else 0) ∧
      c'.V x = (c.V x + (if c.V x + c.V 0xF > 255 then 1 else 0)) % 256 := by
  have hVx := hwf.V_lt x
  have hVF := hwf.V_lt 15
  rw [EmulateCycle_of_Fetches c _ hf]
  have e1 : (0x80F4 + 256 * x) / 4096 = 8 := by omega
  rw [e1]
  simp only [decodeTable, decodeOpcode8, and_0008, and_0007]
  have e2 : 8 * ((0x80F4 + 256 * x) / 8 % 2) = 0 := by omega
  have e3 : (0x80F4 + 256 * x) % 8 = 4 := by omega
  rw [if_pos e2, e3]
  simp only [opcode8DecodeTable, add, opX, opY, and_0F00, and_00F0]
  have e4 : (0x80F4 + 256 * x) / 256 % 16 = x := by omega
  have e5 : (0x80F4 + 256 * x) / 16 % 16 = 15 := by omega
  rw [e4, e5]
  have hx15 : x ≠ 15 := by omega
  have hx15r : 15 ≠ x := by omega
  refine ⟨_, rfl, ?_, ?_⟩
  · simp [setAt, hx15, hx15r, Nat.shiftRight_eq_div_pow]
    split_ifs <;> omega
  · simp [setAt, hx15, hx15r, Nat.shiftRight_eq_div_pow]
    split_ifs <;> omega

/-- C23. In every state reachable from construction by successful loads, key-pad
writes and steps that make no access outside an array, each of the 2048
framebuffer cells holds 0 or 1, so a cell equals 1 exactly when it is not 0. -/
theorem framebuffer_bits (c : Chip8) (hr : Reachable c) :
    (∀ p, p < 2048 → c.screen p = 0 ∨ c.screen p = 1) ∧
    (∀ p, p < 2048 → (c.screen p = 1 ↔ c.screen p ≠ 0)) := by
  have hb : Bits c := by
    induction hr with
    | reset c0 =>
      intro p _
      left; rfl
    | load c bytes _ hok ih =>
      have e : (LoadApplication (some bytes) c).2.screen = c.screen := by
        unfold LoadApplication
        simp only []
        split_ifs <;> rfl
      intro p hp
      rw [e]
      exact ih p hp
    | key c k v _ _ _ ih => exact ih
    | step c c' _ hstep ih => exact EmulateCycle_Bits c c' ih hstep
  refine ⟨hb, ?_⟩
  intro p hp
  rcases hb p hp with h | h <;> rw [h] <;> decide

/-- Witness for C23: construction, loading the bytes D0 15 and one step, which
draws the first font glyph. -/
theorem framebuffer_bits_witness :
    Reachable (stepOr (LoadApplication (some [0xD0, 0x15]) (init blank)).2) ∧
    (stepOr (LoadApplication (some [0xD0, 0x15]) (init blank)).2).screen 0 = 1 ∧
    (∀ p, p < 2048 →
      (stepOr (LoadApplication (some [0xD0, 0x15]) (init blank)).2).screen p = 0 ∨
      (stepOr (LoadApplication (some [0xD0, 0x15]) (init blank)).2).screen p = 1) := by
  have hr : Reachable (stepOr (LoadApplication (some [0xD0, 0x15]) (init blank)).2) :=
    Reachable.step _ _ (Reachable.load (init blank) [0xD0, 0x15] (Reachable.reset blank) rfl) rfl
  exact ⟨hr, rfl, (framebuffer_bits _ hr).1⟩

end Chip8Emulator
